import Mathlib

/-!
Spreadsheet: cells, the reference graph, cycle detection and cached values

A shallow embedding of `cell.h`, `cell.cpp`, `sheet.h`, `sheet.cpp` and
`formula.cpp`.

* The grid `Sheet::sheet_` is a list of rows of optional cells.
* Every `Cell` object carries the address it was allocated at; the pointer sets
  `dependent_cells_` and `referencing_cells_` hold such addresses.  A pointer
  whose cell has been destroyed is an address that no slot of the grid holds.
* Inside one call, a pointer that was just obtained from `GetCell(pos)` is
  identified with `pos`: each slot owns its own object, so two such pointers
  are equal exactly when the positions are.
* `common.h` and `FormulaAST.h` are not among the sources.  Their constants and
  the expression tree are the fields of `Env` and `FormulaAST`; every general
  theorem holds for all of them.
* `double` is represented by `Int`; no statement below depends on rounding.
* A `std::string` is a Lean `String`, read as its list of characters.
-/

set_option autoImplicit false

namespace Spreadsheet

/-! ## Values and positions -/

/-- Position of `common.h`: zero-based row and column, both `int`. -/
structure Position where
  row : Int
  col : Int
deriving DecidableEq, Repr

/-- Modelled from the spec: `FormulaError` of `common.h` (missing), with the
three kinds of computational error the spec names: a reference out of bounds,
a non-numeric operand, and a division by zero. -/
inductive FormulaError where
  | Ref
  | Value
  | Arithmetic
deriving DecidableEq, Repr

/-- The type `FormulaInterface::Value`, a `std::variant<double, FormulaError>`. -/
inductive FormulaValue where
  | Number (x : Int)
  | Error (e : FormulaError)
deriving DecidableEq, Repr

/-- The type `CellInterface::Value`, a
`std::variant<std::string, double, FormulaError>`. -/
inductive Value where
  | Text (t : String)
  | Number (x : Int)
  | Error (e : FormulaError)
deriving DecidableEq, Repr

/-- The conversion done by `std::visit` in `FormulaImpl::GetValue`. -/
def FormulaValue.toValue : FormulaValue → Value
  | .Number x => .Number x
  | .Error e => .Error e

/-- Modelled from the spec: one run of `FormulaAST::Execute` (the class is not
among the sources).  The expression either finishes, with a number or with a
thrown `FormulaError`, or reads the value of one cell through the sheet and goes
on according to what it read.  Any deterministic evaluator that touches the
sheet only by reading cell values is such a tree. -/
inductive Exec where
  | finish (v : FormulaValue)
  | read (pos : Position) (next : Value → Exec)

/-- Modelled from the spec: what `Formula` uses of the missing `FormulaAST`:
the cells the tree reports (`GetCells`, in the tree's order and with repeats),
its printed form (`PrintFormula`) and its evaluation (`Execute`). -/
structure FormulaAST where
  GetCells : List Position
  PrintFormula : String
  Execute : Exec

/-- The declarations of `common.h` and `FormulaAST.h` that the sources use and
that are not among them: the sheet bounds, the two marker characters and the
parser (`none` stands for any exception thrown by `ParseFormulaAST`). -/
structure Env where
  MAX_ROWS : Int
  MAX_COLS : Int
  FORMULA_SIGN : Char
  ESCAPE_SIGN : Char
  ParseFormulaAST : String → Option FormulaAST

/-- Modelled from the spec: `Position::IsValid` (defined outside the sources):
`0 <= row < MAX_ROWS` and `0 <= col < MAX_COLS`. -/
def Position.IsValid (E : Env) (p : Position) : Bool :=
  decide (0 ≤ p.row) && decide (0 ≤ p.col) && decide (p.row < E.MAX_ROWS) &&
    decide (p.col < E.MAX_COLS)

/-- Modelled from the spec: the order `operator<` of `Position` (defined outside
the sources) as "less or equal": by row, then by column. -/
def Position.le (a b : Position) : Bool :=
  decide (a.row < b.row) || (decide (a.row = b.row) && decide (a.col ≤ b.col))

/-! ## Formula (formula.cpp) -/

/-- The private members of `Formula`. -/
structure Formula where
  ast_ : FormulaAST
  cells_ : List Position
  cache_ : Option FormulaValue

/-- The rest of `std::forward_list::unique` once the element `prev` has been
kept: an element equal to the one before it is dropped. -/
def uniqueFrom (prev : Position) : List Position → List Position
  | [] => []
  | x :: t => if x = prev then uniqueFrom prev t else x :: uniqueFrom x t

/-- The method `std::forward_list::unique`: of each run of consecutive equal
elements only the first stays. -/
def unique : List Position → List Position
  | [] => []
  | x :: t => x :: uniqueFrom x t

/-- The call `std::sort` on positions. -/
def sortPositions (l : List Position) : List Position :=
  l.insertionSort (fun a b => Position.le a b = true)

/-- The method `Formula::SetCells`: `unique()` on the list of the tree, then `std::sort`. -/
def Formula.SetCells (ast : FormulaAST) : List Position :=
  sortPositions (unique ast.GetCells)

/-- The function `ParseFormula`, that is the constructor of `Formula`; `none` is
the `FormulaException` it throws when `ParseFormulaAST` throws. -/
def ParseFormula (E : Env) (expression : String) : Option Formula :=
  match E.ParseFormulaAST expression with
  | none => none
  | some ast => some { ast_ := ast, cells_ := Formula.SetCells ast, cache_ := none }

/-- The method `Formula::GetReferencedCells`. -/
def Formula.GetReferencedCells (f : Formula) : List Position := f.cells_

/-- The method `Formula::HasCache`. -/
def Formula.HasCache (f : Formula) : Bool := f.cache_.isSome

/-- The method `Formula::ClearCache`. -/
def Formula.ClearCache (f : Formula) : Formula := { f with cache_ := none }

/-- The method `Formula::GetExpression`. -/
def Formula.GetExpression (f : Formula) : String := f.ast_.PrintFormula

/-! ## Cell contents (cell.cpp) -/

/-- The three subclasses of `Cell::Impl`. -/
inductive Impl where
  | EmptyImpl
  | TextImpl (text_ : String)
  | FormulaImpl (formula_ : Formula)

/-- The methods `GetText` of the three subclasses. -/
def Impl.GetText (E : Env) : Impl → String
  | .EmptyImpl => ""
  | .TextImpl text_ => text_
  | .FormulaImpl formula_ => String.singleton E.FORMULA_SIGN ++ formula_.GetExpression

/-- The methods `GetReferencedCells` of the three subclasses. -/
def Impl.GetReferencedCells : Impl → List Position
  | .EmptyImpl => []
  | .TextImpl _ => []
  | .FormulaImpl formula_ => formula_.GetReferencedCells

/-- The method `TextImpl::GetValue`: `text_[0] == ESCAPE_SIGN ? text_.substr(1) : text_`
(`text_[0]` of an empty `std::string` is the null character). -/
def TextImpl.GetValue (E : Env) (text_ : String) : Value :=
  if text_.data.headD (Char.ofNat 0) = E.ESCAPE_SIGN then .Text (String.mk (text_.data.drop 1))
  else .Text text_

/-- A `Cell` object: the address it lives at, `impl_` (`none` is the null
`unique_ptr` the constructor leaves), and the two pointer sets. -/
structure Cell where
  addr : Nat
  impl_ : Option Impl
  dependent_cells_ : List Nat
  referencing_cells_ : List Nat

/-- The constructor `Cell::Cell(sheet)`, at a fresh address. -/
def Cell.create (addr : Nat) : Cell :=
  { addr := addr, impl_ := none, dependent_cells_ := [], referencing_cells_ := [] }

/-- The method `Cell::GetText`; `none` is the dereference of a null `impl_`. -/
def Cell.GetText (E : Env) (c : Cell) : Option String := c.impl_.map (Impl.GetText E)

/-- The method `Cell::GetReferencedCells`; `none` is the dereference of a null `impl_`. -/
def Cell.GetReferencedCells (c : Cell) : Option (List Position) :=
  c.impl_.map Impl.GetReferencedCells

/-- The method `Cell::GetDependentCells`: it returns the set by value, a copy. -/
def Cell.GetDependentCells (c : Cell) : List Nat := c.dependent_cells_

/-! ## The sheet (sheet.cpp) -/

/-- A `Sheet`: the grid `sheet_`, and the next address `make_unique<Cell>` hands out. -/
structure Sheet where
  sheet_ : List (List (Option Cell))
  fresh : Nat

/-- The sheet made by `CreateSheet`. -/
def Sheet.empty : Sheet := { sheet_ := [], fresh := 0 }

/-- The exceptions thrown by the sheet and the cell. -/
inductive Exn where
  | InvalidPosition
  | CircularDependency
  | FormulaException
deriving DecidableEq, Repr

/-- How a call that leaves the sheet as it is can end: it returns, it throws, it
dereferences a null or destroyed object, or the recursion budget of the
embedding runs out. -/
inductive Res (α : Type) where
  | ok (a : α)
  | threw (e : Exn)
  | undefined
  | outOfFuel

/-- How a call that changes the sheet can end: it returns and leaves sheet `s`,
it throws and leaves sheet `s`, it dereferences a null or destroyed object, or
the recursion budget of the embedding runs out. -/
inductive Outcome where
  | done (s : Sheet)
  | threw (e : Exn) (s : Sheet)
  | undefined
  | outOfFuel

/-- The call `std::vector::resize(n)`, new elements being `d`. -/
def resize {α : Type} (l : List α) (n : Nat) (d : α) : List α :=
  l.take n ++ List.replicate (n - l.length) d

/-- What `sheet_[r][c]` holds; nothing outside the vectors. -/
def slot (g : List (List (Option Cell))) (r c : Nat) : Option Cell :=
  match g[r]? with
  | none => none
  | some cells =>
    match cells[c]? with
    | none => none
    | some o => o

/-- The cell owned by the slot at `pos`, if `pos` is inside the grid and the slot
is not null. -/
def Sheet.cellAt (s : Sheet) (pos : Position) : Option Cell :=
  if 0 ≤ pos.row ∧ 0 ≤ pos.col then slot s.sheet_ pos.row.toNat pos.col.toNat else none

/-- The method `Sheet::IsOutSheet`; it is called on valid positions only. -/
def Sheet.IsOutSheet (s : Sheet) (pos : Position) : Bool :=
  decide (pos.row ≥ (s.sheet_.length : Int)) ||
    decide (pos.col ≥ ((s.sheet_.getD pos.row.toNat []).length : Int))

/-- The methods `Sheet::GetCell`, through `Sheet::GetCellImpl`. -/
def Sheet.GetCell (E : Env) (s : Sheet) (pos : Position) : Except Exn (Option Cell) :=
  if pos.IsValid E then
    if s.IsOutSheet pos then .ok none
    else .ok (slot s.sheet_ pos.row.toNat pos.col.toNat)
  else .error .InvalidPosition

/-- The method `Sheet::SetSize`. -/
def Sheet.SetSize (s : Sheet) (pos : Position) : Sheet :=
  let rows :=
    if pos.row ≥ (s.sheet_.length : Int) then resize s.sheet_ (pos.row.toNat + 1) []
    else s.sheet_
  let rows :=
    if pos.col ≥ ((rows.getD pos.row.toNat []).length : Int) then
      rows.set pos.row.toNat (resize (rows.getD pos.row.toNat []) (pos.col.toNat + 1) none)
    else rows
  { s with sheet_ := rows }

/-- The assignment `sheet_.at(pos.row).at(pos.col) = x` (with `x` null: `reset()`);
at each place it is used the indices are inside the vectors. -/
def Sheet.put (s : Sheet) (pos : Position) (x : Option Cell) : Sheet :=
  { s with sheet_ :=
      s.sheet_.set pos.row.toNat ((s.sheet_.getD pos.row.toNat []).set pos.col.toNat x) }

/-- A write to the members of the cell at `pos`. -/
def Sheet.modify (s : Sheet) (pos : Position) (f : Cell → Cell) : Sheet :=
  match s.cellAt pos with
  | none => s
  | some c => s.put pos (some (f c))

/-! ## Pointers kept in the sets -/

/-- The column of the first slot of a row whose cell lives at address `a`. -/
def findInRow (a : Nat) : List (Option Cell) → Nat → Option Nat
  | [], _ => none
  | none :: t, c => findInRow a t (c + 1)
  | some x :: t, c => if x.addr = a then some c else findInRow a t (c + 1)

/-- The slot whose cell lives at address `a`. -/
def findInRows (a : Nat) : List (List (Option Cell)) → Nat → Option Position
  | [], _ => none
  | cells :: t, r =>
    match findInRow a cells 0 with
    | some c => some { row := (r : Int), col := (c : Int) }
    | none => findInRows a t (r + 1)

/-- Where the object a stored `Cell*` points to is: the slot that owns the cell
at that address, or `none` when the cell has been destroyed. -/
def Sheet.findAddr (s : Sheet) (a : Nat) : Option Position := findInRows a s.sheet_ 0

/-- Insertion into a `CellsSet`. -/
def setInsert {α : Type} [DecidableEq α] (a : α) (l : List α) : List α :=
  if a ∈ l then l else a :: l

/-! ## Cache invalidation (cell.cpp) -/

/-- The loop `for (Cell* dependent_cell : ...) InvalidateCacheRecursively(dependent_cell, visited_cells)`. -/
def forEachDependent (recur : Sheet → Nat → List Nat → Res (Sheet × List Nat)) :
    List Nat → Sheet → List Nat → Res (Sheet × List Nat)
  | [], s, visited => .ok (s, visited)
  | a :: rest, s, visited =>
    match recur s a visited with
    | .ok (s1, visited1) => forEachDependent recur rest s1 visited1
    | .threw e => .threw e
    | .undefined => .undefined
    | .outOfFuel => .outOfFuel

/-- The method `Cell::InvalidateCacheRecursively(cell, visited_cells)`, `cell`
being the stored pointer `a`.  A visited cell is left alone; a formula cell
with a cache loses it and its dependents (a copy of the set, taken after the
cache is cleared) are gone through; then the cell is marked visited.  The
`dynamic_cast` of a null `impl_` is null, so a cell without content is only
marked. -/
def InvalidateCacheRecursively : Nat → Sheet → Nat → List Nat → Res (Sheet × List Nat)
  | 0, _, _, _ => .outOfFuel
  | n + 1, s, a, visited =>
    if a ∈ visited then .ok (s, visited)
    else
      match s.findAddr a with
      | none => .undefined
      | some p =>
        match s.cellAt p with
        | none => .undefined
        | some cell =>
          match cell.impl_ with
          | some (.FormulaImpl formula) =>
            if formula.HasCache then
              let s1 := s.put p (some { cell with impl_ := some (.FormulaImpl formula.ClearCache) })
              match forEachDependent (InvalidateCacheRecursively n) cell.GetDependentCells s1 visited with
              | .ok (s2, visited2) => .ok (s2, setInsert a visited2)
              | .threw e => .threw e
              | .undefined => .undefined
              | .outOfFuel => .outOfFuel
            else .ok (s, setInsert a visited)
          | _ => .ok (s, setInsert a visited)

/-- The method `Cell::InvalidateCache(dependent_cells)`: a new visited set, then
every cell of the set in turn. -/
def InvalidateCache (fuel : Nat) (s : Sheet) (dependent_cells : List Nat) : Res Sheet :=
  match forEachDependent (InvalidateCacheRecursively fuel) dependent_cells s [] with
  | .ok (s1, _) => .ok s1
  | .threw e => .threw e
  | .undefined => .undefined
  | .outOfFuel => .outOfFuel

/-- The method `Cell::ClearCellReferences` of the cell at `self`.  First
`InvalidateCache(dependent_cells_)`.  Then `cell->GetDependentCells().erase(this)`
for every stored pointer: the set erased from is the copy `GetDependentCells`
returns, so no cell changes, but `cell` is dereferenced, which is undefined when
that cell has been destroyed.  Then `referencing_cells_.clear()`. -/
def ClearCellReferences (fuel : Nat) (s : Sheet) (self : Position) : Res Sheet :=
  match s.cellAt self with
  | none => .undefined
  | some this =>
    match InvalidateCache fuel s this.dependent_cells_ with
    | .ok s1 =>
      match s1.cellAt self with
      | none => .undefined
      | some this1 =>
        if this1.referencing_cells_.all (fun a => (s1.findAddr a).isSome) then
          .ok (s1.put self (some { this1 with referencing_cells_ := [] }))
        else .undefined
    | .threw e => .threw e
    | .undefined => .undefined
    | .outOfFuel => .outOfFuel

/-! ## Cycle detection (cell.cpp) -/

/-- The loop of `Cell::HasCyclicDependenceRecursively(cell, referenced_positions,
visited_cells)` run by the cell at `self`; `recur` is the recursive call.  The
argument `cell` is `this` at the first call and is handed down unchanged, so it
is `self` throughout; a returned pair is the result and the visited set. -/
def cyclicLoop (E : Env) (s : Sheet) (self : Position)
    (recur : List Position → List Position → Res (Bool × List Position)) :
    List Position → List Position → Res (Bool × List Position)
  | [], visited => .ok (false, visited)
  | pos :: rest, visited =>
    match s.GetCell E pos with
    | .error e => .threw e
    | .ok none => cyclicLoop E s self recur rest visited
    | .ok (some ref_cell) =>
      if self ∈ visited then cyclicLoop E s self recur rest visited
      else if pos = self then .ok (true, visited)
      else
        match ref_cell.GetReferencedCells with
        | none => .undefined
        | some cells =>
          match recur cells (setInsert pos visited) with
          | .ok (true, visited1) => .ok (true, visited1)
          | .ok (false, visited1) => cyclicLoop E s self recur rest visited1
          | .threw e => .threw e
          | .undefined => .undefined
          | .outOfFuel => .outOfFuel

/-- The method `Cell::HasCyclicDependenceRecursively`, with a bound on the depth
of the recursion. -/
def HasCyclicDependenceRecursively (E : Env) (s : Sheet) (self : Position) :
    Nat → List Position → List Position → Res (Bool × List Position)
  | 0, _, _ => .outOfFuel
  | n + 1, referenced_positions, visited =>
    cyclicLoop E s self (HasCyclicDependenceRecursively E s self n) referenced_positions visited

/-- The method `Cell::HasCyclicDependence` of the cell at `self`. -/
def HasCyclicDependence (E : Env) (fuel : Nat) (s : Sheet) (self : Position)
    (referenced_positions : List Position) : Res Bool :=
  match HasCyclicDependenceRecursively E s self fuel referenced_positions [] with
  | .ok (b, _) => .ok b
  | .threw e => .threw e
  | .undefined => .undefined
  | .outOfFuel => .outOfFuel

/-! ## Writing a cell (cell.cpp, sheet.cpp) -/

/-- The method `Cell::AddCellReferences` of the cell at `self`; `setCell` is
`Sheet::SetCell`.  For each position: a missing cell is created with
`SetCell(pos, "")`; the pointer to the cell at `pos` goes into
`referencing_cells_`; `cell->GetDependentCells().insert(this)` inserts into the
copy `GetDependentCells` returns, so the cell at `pos` does not change. -/
def AddCellReferences (E : Env) (setCell : Sheet → Position → String → Outcome)
    (self : Position) : List Position → Sheet → Outcome
  | [], s => .done s
  | pos :: rest, s =>
    match s.GetCell E pos with
    | .error e => .threw e s
    | .ok found =>
      let created : Outcome :=
        match found with
        | none => setCell s pos ""
        | some _ => .done s
      match created with
      | .done s1 =>
        match s1.GetCell E pos with
        | .error e => .threw e s1
        | .ok none => .undefined
        | .ok (some cell) =>
          AddCellReferences E setCell self rest
            (s1.modify self (fun this =>
              { this with referencing_cells_ := setInsert cell.addr this.referencing_cells_ }))
      | .threw e s1 => .threw e s1
      | .undefined => .undefined
      | .outOfFuel => .outOfFuel

/-- The method `Cell::Set(text)` of the cell at `self`; `setCell` is
`Sheet::SetCell`, reached through `AddCellReferences`. -/
def Cell.Set (E : Env) (setCell : Sheet → Position → String → Outcome) (fuel : Nat)
    (s : Sheet) (self : Position) (text : String) : Outcome :=
  match ClearCellReferences fuel s self with
  | .ok s1 =>
    if text.data = [] then
      .done (s1.modify self (fun this => { this with impl_ := some .EmptyImpl }))
    else if text.data.head? = some E.FORMULA_SIGN ∧ 1 < text.data.length then
      match ParseFormula E (String.mk (text.data.drop 1)) with
      | none => .threw .FormulaException s1
      | some formula =>
        match HasCyclicDependence E fuel s1 self formula.GetReferencedCells with
        | .ok true => .threw .CircularDependency s1
        | .ok false =>
          match AddCellReferences E setCell self formula.GetReferencedCells s1 with
          | .done s2 =>
            .done (s2.modify self (fun this => { this with impl_ := some (.FormulaImpl formula) }))
          | .threw e s2 => .threw e s2
          | .undefined => .undefined
          | .outOfFuel => .outOfFuel
        | .threw e => .threw e s1
        | .undefined => .undefined
        | .outOfFuel => .outOfFuel
    else
      .done (s1.modify self (fun this => { this with impl_ := some (.TextImpl text) }))
  | .threw e => .threw e s
  | .undefined => .undefined
  | .outOfFuel => .outOfFuel

/-- The method `Sheet::SetCell(pos, text)`.  The budget bounds the nesting of
the calls of `SetCell` (it calls itself once a missing cell has been created,
and `AddCellReferences` calls it for missing referenced cells) and the depth of
the two recursive searches of `Cell::Set`. -/
def SetCell (E : Env) : Nat → Sheet → Position → String → Outcome
  | 0, _, _, _ => .outOfFuel
  | n + 1, s, pos, text =>
    if pos.IsValid E then
      match s.GetCell E pos with
      | .error e => .threw e s
      | .ok (some _) => Cell.Set E (SetCell E n) n s pos text
      | .ok none =>
        SetCell E n
          { ((s.SetSize pos).put pos (some (Cell.create s.fresh))) with fresh := s.fresh + 1 }
          pos text
    else .threw .InvalidPosition s

/-- The method `Sheet::ClearCell(pos)`. -/
def ClearCell (E : Env) (s : Sheet) (pos : Position) : Outcome :=
  if pos.IsValid E then
    match s.GetCell E pos with
    | .error e => .threw e s
    | .ok (some _) => .done (s.put pos none)
    | .ok none => .done s
  else .threw .InvalidPosition s

/-! ## Printable size (sheet.cpp) -/

/-- The type `Size` of `common.h`; both counts are never negative. -/
structure Size where
  rows : Nat
  cols : Nat
deriving DecidableEq, Repr

/-- The inner loop of `Sheet::GetPrintableSize` over the columns of row `row`,
from column `col` on. -/
def scanRow (row : Nat) : List (Option Cell) → Nat → Size → Size
  | [], _, acc => acc
  | none :: t, col, acc => scanRow row t (col + 1) acc
  | some _ :: t, col, acc =>
    scanRow row t (col + 1) { rows := max acc.rows (row + 1), cols := max acc.cols (col + 1) }

/-- The outer loop of `Sheet::GetPrintableSize`, from row `row` on. -/
def scanRows : List (List (Option Cell)) → Nat → Size → Size
  | [], _, acc => acc
  | cells :: t, row, acc => scanRows t (row + 1) (scanRow row cells 0 acc)

/-- The method `Sheet::GetPrintableSize`. -/
def Sheet.GetPrintableSize (s : Sheet) : Size := scanRows s.sheet_ 0 { rows := 0, cols := 0 }

/-! ## Reading a value (cell.cpp, formula.cpp) -/

/-- Modelled from the spec: the cell lookup `FormulaAST::Execute` (missing) is
given: the value of the cell at `pos` (`cellValue` is `Cell::GetValue`), the
text `""` when no cell is there, a `Ref` error when `pos` is out of bounds. -/
def lookupValue (E : Env) (cellValue : Sheet → Position → Res (Value × Sheet))
    (s : Sheet) (pos : Position) : Res (Value × Sheet) :=
  if pos.IsValid E then
    match s.cellAt pos with
    | none => .ok (.Text "", s)
    | some _ => cellValue s pos
  else .ok (.Error .Ref, s)

/-- The call `ast_.Execute(sheet)`: the reads of the expression are served one
after the other; a read may fill the cache of the cell it reads. -/
def runExec (lookup : Sheet → Position → Res (Value × Sheet)) :
    Exec → Sheet → Res (FormulaValue × Sheet)
  | .finish v, s => .ok (v, s)
  | .read pos next, s =>
    match lookup s pos with
    | .ok (v, s1) => runExec lookup (next v) s1
    | .threw e => .threw e
    | .undefined => .undefined
    | .outOfFuel => .outOfFuel

/-- The method `Formula::Evaluate(sheet)` of the formula of the cell at `self`:
the cached value if there is one; else the result of `Execute`, a thrown
`FormulaError` included, is stored in `cache_` and returned. -/
def Formula.Evaluate (lookup : Sheet → Position → Res (Value × Sheet)) (s : Sheet)
    (self : Position) (formula : Formula) : Res (FormulaValue × Sheet) :=
  match formula.cache_ with
  | some v => .ok (v, s)
  | none =>
    match runExec lookup formula.ast_.Execute s with
    | .ok (v, s1) =>
      .ok (v, s1.modify self (fun this =>
        match this.impl_ with
        | some (.FormulaImpl f) => { this with impl_ := some (.FormulaImpl { f with cache_ := some v }) }
        | _ => this))
    | .threw e => .threw e
    | .undefined => .undefined
    | .outOfFuel => .outOfFuel

/-- The method `Cell::GetValue` of the cell at `self`, with a bound on the depth
of the chain of cells read; a null `impl_` is dereferenced when the cell has no
content. -/
def GetValue (E : Env) : Nat → Sheet → Position → Res (Value × Sheet)
  | 0, _, _ => .outOfFuel
  | n + 1, s, self =>
    match s.cellAt self with
    | none => .undefined
    | some this =>
      match this.impl_ with
      | none => .undefined
      | some .EmptyImpl => .ok (.Text "", s)
      | some (.TextImpl text_) => .ok (TextImpl.GetValue E text_, s)
      | some (.FormulaImpl formula) =>
        match Formula.Evaluate (lookupValue E (GetValue E n)) s self formula with
        | .ok (v, s1) => .ok (v.toValue, s1)
        | .threw e => .threw e
        | .undefined => .undefined
        | .outOfFuel => .outOfFuel

/-! ## Sequences of calls -/

/-- A call a user of the sheet makes: `SetCell(pos, text)`, `ClearCell(pos)`, or
`GetCell(pos)->GetValue()`. -/
inductive Call where
  | SetCell (pos : Position) (text : String)
  | ClearCell (pos : Position)
  | GetValue (pos : Position)

/-- One call on sheet `s`, with recursion budget `fuel`. -/
def step (E : Env) (fuel : Nat) (s : Sheet) : Call → Outcome
  | .SetCell pos text => SetCell E fuel s pos text
  | .ClearCell pos => ClearCell E s pos
  | .GetValue pos =>
    match s.GetCell E pos with
    | .error e => .threw e s
    | .ok none => .undefined
    | .ok (some _) =>
      match GetValue E fuel s pos with
      | .ok (_, s1) => .done s1
      | .threw e => .threw e s
      | .undefined => .undefined
      | .outOfFuel => .outOfFuel

/-- The sheet a call leaves, whether it returned or threw. -/
def Outcome.sheet : Outcome → Option Sheet
  | .done s => some s
  | .threw _ s => some s
  | .undefined => none
  | .outOfFuel => none

/-- The sheet after a sequence of calls, each with its own budget; the caller
catches the exceptions and goes on.  There is no such sheet when a call
dereferences a null or destroyed object, or runs out of budget. -/
def afterCalls (E : Env) : List (Nat × Call) → Sheet → Option Sheet
  | [], s => some s
  | (fuel, call) :: rest, s =>
    match (step E fuel s call).sheet with
    | none => none
    | some s1 => afterCalls E rest s1

/-- The sheets a program can get to from the empty sheet. -/
def Reachable (E : Env) (s : Sheet) : Prop :=
  ∃ calls, afterCalls E calls Sheet.empty = some s

/-! ## The reference graph -/

/-- The cell at `p` holds content whose referenced positions include `q`. -/
def Refs (s : Sheet) (p q : Position) : Prop :=
  ∃ cell impl, s.cellAt p = some cell ∧ cell.impl_ = some impl ∧ q ∈ impl.GetReferencedCells

/-- No cell refers to itself through one or more references. -/
def Acyclic (s : Sheet) : Prop := ∀ p, ¬ Relation.TransGen (Refs s) p p

/-! ## An expression language for the examples

The examples of the specification are run with the formulas below.  They stand
in for the parser and the expression tree, which are not among the sources. -/

/-- Arithmetic expressions over numbers and cells. -/
inductive Expr where
  | num (x : Int)
  | cell (p : Position)
  | add (a b : Expr)
  | mul (a b : Expr)

/-- The decimal number a list of digits writes, after the digits read so far. -/
def digitsToNat : List Char → Nat → Option Nat
  | [], acc => some acc
  | c :: t, acc =>
    if 48 ≤ c.toNat ∧ c.toNat ≤ 57 then digitsToNat t (acc * 10 + (c.toNat - 48)) else none

/-- The number a cell value stands for in an expression: a number is itself, the
empty text is zero, a text of digits is the number it writes; any other text is
a `Value` error and an error stays that error. -/
def operand : Value → FormulaValue
  | .Number x => .Number x
  | .Error e => .Error e
  | .Text t =>
    match digitsToNat t.data 0 with
    | some n => .Number (n : Int)
    | none => .Error .Value

/-- Evaluation from left to right; the first error ends it. -/
def Expr.run : Expr → (Int → Exec) → Exec
  | .num x, k => k x
  | .cell p, k =>
    .read p (fun v =>
      match operand v with
      | .Number x => k x
      | .Error e => .finish (.Error e))
  | .add a b, k => a.run (fun x => b.run (fun y => k (x + y)))
  | .mul a b, k => a.run (fun x => b.run (fun y => k (x * y)))

/-- The cells of an expression, from left to right. -/
def Expr.cells : Expr → List Position
  | .num _ => []
  | .cell p => [p]
  | .add a b => a.cells ++ b.cells
  | .mul a b => a.cells ++ b.cells

/-- The tree of an expression, printed as `text`. -/
def Expr.toAST (e : Expr) (text : String) : FormulaAST :=
  { GetCells := e.cells, PrintFormula := text, Execute := e.run (fun x => .finish (.Number x)) }

/-- The cells A1, B1, C1, D1 and C3. -/
def A1 : Position := { row := 0, col := 0 }

/-- The cell B1. -/
def B1 : Position := { row := 0, col := 1 }

/-- The cell C1. -/
def C1 : Position := { row := 0, col := 2 }

/-- The cell D1. -/
def D1 : Position := { row := 0, col := 3 }

/-- The cell C3. -/
def C3 : Position := { row := 2, col := 2 }

/-- The formulas of the examples. -/
def exampleFormulas : List (String × Expr) :=
  [("1", .num 1),
   ("A1", .cell A1),
   ("B1", .cell B1),
   ("C1", .cell C1),
   ("A1*2", .mul (.cell A1) (.num 2)),
   ("A1+1", .add (.cell A1) (.num 1)),
   ("B1+1", .add (.cell B1) (.num 1)),
   ("B1+C1", .add (.cell B1) (.cell C1)),
   ("A1+B1+A1", .add (.add (.cell A1) (.cell B1)) (.cell A1))]

/-- The environment of the examples: a sheet of 16384 by 16384 cells, the
formula marker `=`, the escape marker (an apostrophe), and a parser that knows
the formulas of the examples. -/
def exampleEnv : Env :=
  { MAX_ROWS := 16384
    MAX_COLS := 16384
    FORMULA_SIGN := '='
    ESCAPE_SIGN := Char.ofNat 39
    ParseFormulaAST := fun text =>
      match exampleFormulas.lookup text with
      | some e => some (e.toAST text)
      | none => none }

/-- What a read of a value returned, if it returned. -/
def Res.value : Res (Value × Sheet) → Option Value
  | .ok (v, _) => some v
  | _ => none

/-- The value `GetCell(pos)->GetValue()` returns on the sheet, if there is a
sheet and the call returns. -/
def valueAt (E : Env) (fuel : Nat) (s : Option Sheet) (pos : Position) : Option Value :=
  match s with
  | none => none
  | some s1 => (GetValue E fuel s1 pos).value


/-- Whether a call returned. -/
def Outcome.returned : Outcome → Bool
  | .done _ => true
  | _ => false

/-- The exception a call threw, if it threw. -/
def Outcome.thrown : Outcome → Option Exn
  | .threw e _ => some e
  | _ => none

/-- One call on the sheet left by earlier calls. -/
def callOn (E : Env) (fuel : Nat) (s : Option Sheet) (call : Call) : Outcome :=
  match s with
  | none => .undefined
  | some s1 => step E fuel s1 call

/-- The cache of the formula of the cell at `pos`, if a formula cell is there. -/
def cacheAt (s : Option Sheet) (pos : Position) : Option (Option FormulaValue) :=
  match s with
  | none => none
  | some s1 =>
    match (s1.cellAt pos).bind Cell.impl_ with
    | some (.FormulaImpl f) => some f.cache_
    | _ => none

/-- The members `dependent_cells_` and `referencing_cells_` of the cell at `pos`. -/
def edgesAt (s : Option Sheet) (pos : Position) : Option (List Nat × List Nat) :=
  match s with
  | none => none
  | some s1 => (s1.cellAt pos).map (fun c => (c.dependent_cells_, c.referencing_cells_))

/-- Whether a cell is at `pos`, and whether it has content. -/
def presentAt (s : Option Sheet) (pos : Position) : Option (Bool × Bool) :=
  match s with
  | none => none
  | some s1 =>
    match s1.cellAt pos with
    | none => some (false, false)
    | some c => some (true, c.impl_.isSome)

/-- The text `GetCell(pos)->GetText()` returns, if a cell with content is there. -/
def textAt (E : Env) (s : Option Sheet) (pos : Position) : Option String :=
  match s with
  | none => none
  | some s1 =>
    match s1.cellAt pos with
    | none => none
    | some c => c.GetText E

/-- A sheet with one cell, at A1, holding the text `1`. -/
def sheetWithA1 : Sheet :=
  { sheet_ := [[some { addr := 0, impl_ := some (.TextImpl "1"), dependent_cells_ := [],
                       referencing_cells_ := [] }]],
    fresh := 1 }

/-- The example of a write: A1 is `1`, B1 is `=A1*2`, and B1 is read. -/
def writeExample : List (Nat × Call) :=
  [(8, .SetCell A1 "1"), (8, .SetCell B1 "=A1*2"), (8, .GetValue B1)]

/-- The example of a cleared reference: A1 is `5`, B1 is `=A1`, B1 is read, A1
is cleared. -/
def clearExample : List (Nat × Call) :=
  [(8, .SetCell A1 "5"), (8, .SetCell B1 "=A1"), (8, .GetValue B1), (8, .ClearCell A1)]

/-- B1 is `=A1`, then A1, the placeholder this created, is cleared. -/
def staleExample : List (Nat × Call) :=
  [(8, .SetCell B1 "=A1"), (8, .ClearCell A1)]

/-- The chain A1 `=1`, B1 `=A1+1`, C1 `=B1+1`. -/
def chainExample : List (Nat × Call) :=
  [(8, .SetCell A1 "=1"), (8, .SetCell B1 "=A1+1"), (8, .SetCell C1 "=B1+1")]

/-- Two cells over one: A1 `=1`, B1 `=A1+1`, C1 `=A1+1`. -/
def diamondExample : List (Nat × Call) :=
  [(8, .SetCell A1 "=1"), (8, .SetCell B1 "=A1+1"), (8, .SetCell C1 "=A1+1")]

/-- Whether a call dereferenced a null or destroyed object. -/
def Outcome.isUndefined : Outcome → Bool
  | .undefined => true
  | _ => false

/-- What a search that returned says: the cell at `self` is not in the visited
set, and the result is whether `self` can be reached from the list. -/
def SearchSound (s : Sheet) (self : Position)
    (search : List Position → List Position → Res (Bool × List Position)) : Prop :=
  ∀ l v b v', self ∉ v → search l v = .ok (b, v') →
    self ∉ v' ∧ (b = true ↔ ∃ c ∈ l, Relation.ReflTransGen (Refs s) c self)

/-- The search from the list `l` returns once the budget is large enough. -/
def SearchTotal (E : Env) (s : Sheet) (self : Position) (l : List Position) : Prop :=
  ∃ N, ∀ fuel, N ≤ fuel → ∀ v, ∃ r, HasCyclicDependenceRecursively E s self fuel l v = .ok r

/-- No cell of the sheet has a dependent recorded. -/
def NoDependents (s : Sheet) : Prop := ∀ p c, s.cellAt p = some c → c.dependent_cells_ = []

/-- Sheet `s1` is sheet `s` but for the slot at `p`, which holds cell `c`. -/
def Updated (s s1 : Sheet) (p : Position) (c : Cell) : Prop :=
  ∀ q, s1.cellAt q = if q = p then some c else s.cellAt q

/-- A cell as `SetCell(pos, "")` makes it at a position that held none: `Empty`
content and no pointer stored. -/
def Cell.IsPlaceholder (c : Cell) : Prop :=
  c.impl_ = some .EmptyImpl ∧ c.dependent_cells_ = [] ∧ c.referencing_cells_ = []

/-- Away from `self`, sheet `s1` is sheet `s` with placeholders added at
positions of the list `l` that held no cell. -/
def Extends (s s1 : Sheet) (self : Position) (l : List Position) : Prop :=
  ∀ q, q ≠ self → s1.cellAt q = s.cellAt q ∨
    (s.cellAt q = none ∧ q ∈ l ∧ ∃ c, s1.cellAt q = some c ∧ c.IsPlaceholder)

/-- The condition of `Cell::Set` for a formula: `text[0] == FORMULA_SIGN && text.size() > 1`. -/
def IsFormulaText (E : Env) (text : String) : Prop :=
  text.data.head? = some E.FORMULA_SIGN ∧ 1 < text.data.length

/-- Whether every cell of the grid satisfies `f`. -/
def Sheet.all (s : Sheet) (f : Cell → Bool) : Bool :=
  s.sheet_.all (fun cells => cells.all (fun o =>
    match o with
    | none => true
    | some c => f c))

/-- What `Cell::Set(text)` did when it was called on the cell `this` at `self` of
sheet `s` and ended with `out`, neither undefined nor out of budget.  The stored
references of the cell were cleared first, which gave sheet `s1`.  Then either
an exception left `s1`; or the content became `Empty` or the text; or the text
was a formula that parsed, the cycle check on `s1` returned false, placeholders
were added for the referenced positions, and the content became the formula. -/
def SetSpec (E : Env) (s : Sheet) (self : Position) (this : Cell) (text : String)
    (out : Outcome) : Prop :=
  ∃ s1, Updated s s1 self { this with referencing_cells_ := [] } ∧
    ((∃ e, out = .threw e s1) ∨
     (text.data = [] ∧ ∃ s', out = .done s' ∧
        Updated s s' self { this with referencing_cells_ := [], impl_ := some .EmptyImpl }) ∨
     (text.data ≠ [] ∧ ¬ IsFormulaText E text ∧ ∃ s', out = .done s' ∧
        Updated s s' self
          { this with referencing_cells_ := [], impl_ := some (.TextImpl text) }) ∨
     (IsFormulaText E text ∧ ∃ formula s',
        ParseFormula E (String.mk (text.data.drop 1)) = some formula ∧ out = .done s' ∧
        (∃ n, HasCyclicDependence E n s1 self formula.GetReferencedCells = .ok false) ∧
        Extends s1 s' self formula.GetReferencedCells ∧
        (∀ q ∈ formula.GetReferencedCells, (s'.cellAt q).isSome = true) ∧
        ∃ R, s'.cellAt self =
          some { this with impl_ := some (.FormulaImpl formula), referencing_cells_ := R }))

/-- What `Sheet::SetCell(pos, text)` did on sheet `s` when it ended with `out`,
neither undefined nor out of budget: at a position that is not valid it threw and
left `s`; else `Cell::Set` ran on the cell at `pos`, which is the cell `s` held
there or, on the sheet `s0` with one more slot filled, a newly constructed one. -/
def SetCellSpec (E : Env) (s : Sheet) (pos : Position) (text : String) (out : Outcome) : Prop :=
  (pos.IsValid E = false ∧ out = .threw .InvalidPosition s) ∨
  (pos.IsValid E = true ∧ ∃ s0 this,
    ((s.cellAt pos = some this ∧ s0 = s) ∨
     (s.cellAt pos = none ∧ this = Cell.create s.fresh ∧ Updated s s0 pos this)) ∧
    this.dependent_cells_ = [] ∧ SetSpec E s0 pos this text out)

/-- The content of a cell with the cache of its formula, if any, dropped. -/
def Impl.eraseCache : Impl → Impl
  | .FormulaImpl f => .FormulaImpl { f with cache_ := none }
  | .EmptyImpl => .EmptyImpl
  | .TextImpl t => .TextImpl t

/-- A cell with the cache of its formula, if any, dropped. -/
def Cell.eraseCache (c : Cell) : Cell := { c with impl_ := c.impl_.map Impl.eraseCache }

/-- Sheet `s1` holds the cells of sheet `s`, up to the caches of the formulas. -/
def SameButCaches (s s1 : Sheet) : Prop :=
  ∀ q, (s1.cellAt q).map Cell.eraseCache = (s.cellAt q).map Cell.eraseCache

/-- B1 is `=A1`, A1 is cleared, and A1 is then written as `=B1`. -/
def rewriteExample : List (Nat × Call) :=
  [(8, .SetCell B1 "=A1"), (8, .ClearCell A1), (8, .SetCell A1 "=B1")]

/-- The sheet after the calls of `chainExample`. -/
def chainSheet : Sheet := (afterCalls exampleEnv chainExample Sheet.empty).getD Sheet.empty

/-- The sheet after `SetCell(A1, "=A1")`, which throws, and `SetCell(B1, "1")`. -/
def contentlessSheet : Sheet :=
  (afterCalls exampleEnv [(8, .SetCell A1 "=A1"), (8, .SetCell B1 "1")] Sheet.empty).getD
    Sheet.empty

/-- The sheet after the calls of `writeExample`. -/
def writeSheet : Sheet := (afterCalls exampleEnv writeExample Sheet.empty).getD Sheet.empty

/-- The sheet after `SetCell(B1, "7")`. -/
def sheetAfterB1 : Sheet :=
  (afterCalls exampleEnv [(8, .SetCell B1 "7")] Sheet.empty).getD Sheet.empty

/-- The address of the cell at `pos`. -/
def addrAt (s : Option Sheet) (pos : Position) : Option Nat :=
  match s with
  | none => none
  | some s1 => (s1.cellAt pos).map Cell.addr

/-- What `GetCell(pos)->GetReferencedCells()` returns, if a cell with content is
there. -/
def referencedAt (s : Option Sheet) (pos : Position) : Option (List Position) :=
  match s with
  | none => none
  | some s1 =>
    match s1.cellAt pos with
    | none => none
    | some c => c.GetReferencedCells

/-- B1 is set to `=A1`, which creates A1 as a placeholder. -/
def referenceExample : List (Nat × Call) := [(8, .SetCell B1 "=A1")]

/-- On the empty sheet, `SetCell(A1, "=A1")`, which throws. -/
def selfReferenceExample : List (Nat × Call) := [(8, .SetCell A1 "=A1")]

/-- The formula of the cell at `pos`, if the cell holds a formula. -/
def formulaAt (s : Sheet) (pos : Position) : Option Formula :=
  match (s.cellAt pos).bind Cell.impl_ with
  | some (.FormulaImpl f) => some f
  | _ => none

/-- What a call returned besides the sheet, if it returned. -/
def Res.result {α : Type} : Res (α × Sheet) → Option α
  | .ok (a, _) => some a
  | _ => none

/-- A1 holds the text `x` and B1 the formula `=A1`. -/
def textOperandSheet : Sheet :=
  (afterCalls exampleEnv [(8, .SetCell A1 "x"), (8, .SetCell B1 "=A1")] Sheet.empty).getD
    Sheet.empty

/-- A1 holds `1` and B1 the formula `=A1*2`, not read yet. -/
def unreadSheet : Sheet :=
  (afterCalls exampleEnv [(8, .SetCell A1 "1"), (8, .SetCell B1 "=A1*2")] Sheet.empty).getD
    Sheet.empty

/-! ## The cycle search with its expansions recorded -/

/-- The loop `cyclicLoop` with one more result: the list of the cells whose
referenced cells the search followed, in the order it followed them (`trace` is
the list so far).  A cell is added where the loop calls
`ref_cell->GetReferencedCells()` for the recursive call. -/
def cyclicLoopTrace (E : Env) (s : Sheet) (self : Position)
    (recur : List Position → List Position → List Position →
      Res (Bool × List Position × List Position)) :
    List Position → List Position → List Position → Res (Bool × List Position × List Position)
  | [], visited, trace => .ok (false, visited, trace)
  | pos :: rest, visited, trace =>
    match s.GetCell E pos with
    | .error e => .threw e
    | .ok none => cyclicLoopTrace E s self recur rest visited trace
    | .ok (some ref_cell) =>
      if self ∈ visited then cyclicLoopTrace E s self recur rest visited trace
      else if pos = self then .ok (true, visited, trace)
      else
        match ref_cell.GetReferencedCells with
        | none => .undefined
        | some cells =>
          match recur cells (setInsert pos visited) (trace ++ [pos]) with
          | .ok (true, visited1, trace1) => .ok (true, visited1, trace1)
          | .ok (false, visited1, trace1) => cyclicLoopTrace E s self recur rest visited1 trace1
          | .threw e => .threw e
          | .undefined => .undefined
          | .outOfFuel => .outOfFuel

/-- The method `Cell::HasCyclicDependenceRecursively` with its expansions recorded. -/
def HasCyclicDependenceRecursivelyTrace (E : Env) (s : Sheet) (self : Position) :
    Nat → List Position → List Position → List Position →
      Res (Bool × List Position × List Position)
  | 0, _, _, _ => .outOfFuel
  | n + 1, referenced_positions, visited, trace =>
    cyclicLoopTrace E s self (HasCyclicDependenceRecursivelyTrace E s self n)
      referenced_positions visited trace

/-- A result of the search without the recorded expansions. -/
def dropTrace : Res (Bool × List Position × List Position) → Res (Bool × List Position)
  | .ok (b, visited, _) => .ok (b, visited)
  | .threw e => .threw e
  | .undefined => .undefined
  | .outOfFuel => .outOfFuel

/-- The cells whose referenced cells one call of `HasCyclicDependence` followed,
in order, if the call returned. -/
def expansions (E : Env) (fuel : Nat) (s : Sheet) (self : Position)
    (referenced_positions : List Position) : Option (List Position) :=
  match HasCyclicDependenceRecursivelyTrace E s self fuel referenced_positions [] [] with
  | .ok (_, _, trace) => some trace
  | _ => none

/-- The number of cells of the sheet. -/
def Sheet.cellCount (s : Sheet) : Nat :=
  (s.sheet_.map (fun cells => (cells.filter Option.isSome).length)).sum

/-- The result of one call of `HasCyclicDependence`, if it returned. -/
def cyclic (E : Env) (fuel : Nat) (s : Sheet) (self : Position)
    (referenced_positions : List Position) : Option Bool :=
  match HasCyclicDependence E fuel s self referenced_positions with
  | .ok b => some b
  | _ => none

/-- The sheet of `chainExample` with one more cell, D1, holding the text `1`. -/
def chainSheetWithD1 : Sheet :=
  (afterCalls exampleEnv (chainExample ++ [(8, .SetCell D1 "1")]) Sheet.empty).getD Sheet.empty

/-- The sheet of `diamondExample` with one more cell, D1, holding the text `1`. -/
def diamondSheetWithD1 : Sheet :=
  (afterCalls exampleEnv (diamondExample ++ [(8, .SetCell D1 "1")]) Sheet.empty).getD
    Sheet.empty

/-- The size `sz` is the bounding box of the slots that satisfy `P`: each of them
lies inside, and the last row and the last column of the box hold one of them
(or the box has no row, no column). -/
def BoxOf (P : Nat → Nat → Prop) (sz : Size) : Prop :=
  (∀ r c, P r c → r + 1 ≤ sz.rows ∧ c + 1 ≤ sz.cols) ∧
  (sz.rows = 0 ∨ ∃ c, P (sz.rows - 1) c) ∧
  (sz.cols = 0 ∨ ∃ r, P r (sz.cols - 1))

/-- Every cell of the sheet is at a valid position. -/
def AllValid (E : Env) (s : Sheet) : Prop := ∀ p c, s.cellAt p = some c → p.IsValid E = true

/-- The sheet after `SetCell(A1, "=C1")`: A1 holds the formula and C1 a
placeholder. -/
def placeholderSheet : Sheet :=
  (afterCalls exampleEnv [(8, .SetCell A1 "=C1")] Sheet.empty).getD Sheet.empty

/-- The sheet after `SetCell(A1, "")`. -/
def emptyTextSheet : Sheet :=
  (afterCalls exampleEnv [(8, .SetCell A1 "")] Sheet.empty).getD Sheet.empty

theorem slot_set (g : List (List (Option Cell))) (r c r' c' : Nat) (x : Option Cell) :
    slot (g.set r ((g.getD r []).set c x)) r' c' =
      if r = r' ∧ c = c' ∧ r < g.length ∧ c < (g.getD r []).length then x else slot g r' c' := by
  unfold slot
  simp only [List.getElem?_set, List.getD_eq_getElem?_getD]
  by_cases hr : r = r'
  · subst hr
    by_cases hlen : r < g.length
    · simp only [hlen, if_true, true_and, and_true]
      rw [List.getElem?_eq_getElem hlen]
      simp only [Option.getD_some, List.getElem?_set]
      by_cases hc : c = c'
      · subst hc
        by_cases hclen : c < g[r].length
        · simp [hclen]
        · simp [hclen, List.getElem?_eq_none (Nat.le_of_not_lt hclen)]
      · simp [hc]
    · simp [hlen, List.getElem?_eq_none (Nat.le_of_not_lt hlen)]
  · simp [hr]

theorem slot_resize_rows (g : List (List (Option Cell))) (n r c : Nat) (h : g.length ≤ n) :
    slot (resize g n []) r c = slot g r c := by
  unfold slot resize
  rw [List.take_of_length_le h, List.getElem?_append]
  by_cases hr : r < g.length
  · simp [hr]
  · simp only [hr, if_false, List.getElem?_eq_none (Nat.le_of_not_lt hr), List.getElem?_replicate]
    by_cases h2 : r - g.length < n - g.length <;> simp [h2]

theorem getElem?_resize_none (l : List (Option Cell)) (n c : Nat) (h : l.length ≤ n) :
    (match (resize l n none)[c]? with | none => none | some o => o) =
      (match l[c]? with | none => none | some o => o) := by
  unfold resize
  rw [List.take_of_length_le h, List.getElem?_append]
  by_cases hc : c < l.length
  · simp [hc]
  · simp only [hc, if_false, List.getElem?_eq_none (Nat.le_of_not_lt hc), List.getElem?_replicate]
    by_cases h2 : c - l.length < n - l.length <;> simp [h2]

theorem length_resize {α : Type} (l : List α) (n : Nat) (d : α) : (resize l n d).length = n := by
  unfold resize
  simp only [List.length_append, List.length_take, List.length_replicate]
  omega

theorem slot_SetSize (s : Sheet) (pos : Position) (r c : Nat) :
    slot (s.SetSize pos).sheet_ r c = slot s.sheet_ r c := by
  unfold Sheet.SetSize
  simp only
  have h1 : ∀ r c, slot (if pos.row ≥ (s.sheet_.length : Int) then
      resize s.sheet_ (pos.row.toNat + 1) [] else s.sheet_) r c = slot s.sheet_ r c := by
    intro r c
    split
    · apply slot_resize_rows; omega
    · rfl
  generalize (if pos.row ≥ (s.sheet_.length : Int) then
      resize s.sheet_ (pos.row.toNat + 1) [] else s.sheet_) = g at h1 ⊢
  rw [← h1]
  split
  · rename_i hcol
    unfold slot
    rw [List.getElem?_set]
    by_cases hr : pos.row.toNat = r
    · subst hr
      simp only [if_true, List.getD_eq_getElem?_getD]
      by_cases hlen : pos.row.toNat < g.length
      · simp only [hlen, if_true, List.getElem?_eq_getElem hlen, Option.getD_some]
        apply getElem?_resize_none
        simp only [List.getD_eq_getElem?_getD, List.getElem?_eq_getElem hlen,
          Option.getD_some] at hcol
        omega
      · simp [hlen, List.getElem?_eq_none (Nat.le_of_not_lt hlen)]
    · simp [hr]
  · rfl

theorem SetSize_inRange (s : Sheet) (pos : Position) (hr : 0 ≤ pos.row) (hc : 0 ≤ pos.col) :
    pos.row.toNat < (s.SetSize pos).sheet_.length ∧
      pos.col.toNat < ((s.SetSize pos).sheet_.getD pos.row.toNat []).length := by
  unfold Sheet.SetSize
  simp only
  have h1 : pos.row.toNat < (if pos.row ≥ (s.sheet_.length : Int) then
      resize s.sheet_ (pos.row.toNat + 1) [] else s.sheet_).length := by
    split
    · rw [length_resize]; omega
    · omega
  generalize (if pos.row ≥ (s.sheet_.length : Int) then
      resize s.sheet_ (pos.row.toNat + 1) [] else s.sheet_) = g at h1 ⊢
  split
  · refine ⟨by rw [List.length_set]; exact h1, ?_⟩
    simp only [List.getD_eq_getElem?_getD, List.getElem?_set, h1, if_true, Option.getD_some,
      length_resize]
    omega
  · rename_i hcol
    exact ⟨h1, by omega⟩

theorem cellAt_put (s : Sheet) (p q : Position) (x : Option Cell) (hr : 0 ≤ p.row)
    (hc : 0 ≤ p.col) (hin : p.row.toNat < s.sheet_.length)
    (hcol : p.col.toNat < (s.sheet_.getD p.row.toNat []).length) :
    (s.put p x).cellAt q = if q = p then x else s.cellAt q := by
  unfold Sheet.cellAt Sheet.put
  simp only [slot_set]
  by_cases hq : q = p
  · subst hq
    rw [if_pos ⟨hr, hc⟩, if_pos ⟨rfl, rfl, hin, hcol⟩, if_pos rfl]
  · simp only [hq, if_false]
    by_cases hnn : 0 ≤ q.row ∧ 0 ≤ q.col
    · simp only [hnn, and_self, if_true]
      have : ¬ (p.row.toNat = q.row.toNat ∧ p.col.toNat = q.col.toNat) := by
        intro ⟨h1, h2⟩
        apply hq
        cases p; cases q
        simp only [Position.mk.injEq] at *
        omega
      split
      · rename_i h5
        exact absurd ⟨h5.1, h5.2.1⟩ this
      · rfl
    · simp [hnn]

theorem cellAt_inRange (s : Sheet) (p : Position) (c : Cell) (h : s.cellAt p = some c) :
    0 ≤ p.row ∧ 0 ≤ p.col ∧ p.row.toNat < s.sheet_.length ∧
      p.col.toNat < (s.sheet_.getD p.row.toNat []).length := by
  unfold Sheet.cellAt at h
  split at h
  · rename_i hnn
    refine ⟨hnn.1, hnn.2, ?_⟩
    unfold slot at h
    split at h
    · simp at h
    · rename_i cells hcells
      split at h
      · simp at h
      · rename_i o ho
        have h1 := List.getElem?_eq_some.mp hcells
        obtain ⟨hlt, hget⟩ := h1
        refine ⟨hlt, ?_⟩
        simp only [List.getD_eq_getElem?_getD, hcells, Option.getD_some]
        exact (List.getElem?_eq_some.mp ho).1
  · simp at h

theorem cellAt_put_of_some (s : Sheet) (p q : Position) (x : Option Cell) (c : Cell)
    (h : s.cellAt p = some c) :
    (s.put p x).cellAt q = if q = p then x else s.cellAt q := by
  obtain ⟨h1, h2, h3, h4⟩ := cellAt_inRange s p c h
  exact cellAt_put s p q x h1 h2 h3 h4

theorem cellAt_put_none (s : Sheet) (p q : Position) (hr : 0 ≤ p.row) (hc : 0 ≤ p.col) :
    (s.put p none).cellAt q = if q = p then none else s.cellAt q := by
  cases h : s.cellAt p with
  | some c => exact cellAt_put_of_some s p q none c h
  | none =>
    unfold Sheet.cellAt Sheet.put
    simp only [slot_set]
    by_cases hq : q = p
    · subst hq
      rw [if_pos rfl, if_pos ⟨hr, hc⟩]
      split
      · rfl
      · have := h
        unfold Sheet.cellAt at this
        simp only [hr, hc, and_self, if_true] at this
        exact this
    · simp only [hq, if_false]
      by_cases hnn : 0 ≤ q.row ∧ 0 ≤ q.col
      · simp only [hnn, and_self, if_true]
        have : ¬ (p.row.toNat = q.row.toNat ∧ p.col.toNat = q.col.toNat) := by
          intro ⟨h1, h2⟩
          apply hq
          cases p; cases q
          simp only [Position.mk.injEq] at *
          omega
        split
        · rename_i h5
          exact absurd ⟨h5.1, h5.2.1⟩ this
        · rfl
      · simp [hnn]

theorem cellAt_create (s : Sheet) (p q : Position) (x : Option Cell) (n : Nat) (hr : 0 ≤ p.row)
    (hc : 0 ≤ p.col) :
    Sheet.cellAt { ((s.SetSize p).put p x) with fresh := n } q =
      if q = p then x else s.cellAt q := by
  have hin := SetSize_inRange s p hr hc
  have h1 := cellAt_put (s.SetSize p) p q x hr hc hin.1 hin.2
  have h2 : (s.SetSize p).cellAt q = s.cellAt q := by
    unfold Sheet.cellAt
    rw [slot_SetSize]
  rw [h2] at h1
  exact h1

theorem cellAt_modify (s : Sheet) (p q : Position) (f : Cell → Cell) :
    (s.modify p f).cellAt q = if q = p then (s.cellAt p).map f else s.cellAt q := by
  unfold Sheet.modify
  cases h : s.cellAt p with
  | none =>
    simp only [Option.map_none']
    by_cases hq : q = p
    · subst hq; simp [h]
    · simp [hq]
  | some c =>
    simp only [Option.map_some']
    exact cellAt_put_of_some s p q _ c h

theorem valid_nonneg (E : Env) (p : Position) (h : p.IsValid E = true) :
    0 ≤ p.row ∧ 0 ≤ p.col := by
  unfold Position.IsValid at h
  simp only [Bool.and_eq_true, decide_eq_true_eq] at h
  exact ⟨h.1.1.1, h.1.1.2⟩

theorem GetCell_valid (E : Env) (s : Sheet) (p : Position) (h : p.IsValid E = true) :
    s.GetCell E p = .ok (s.cellAt p) := by
  obtain ⟨hr, hc⟩ := valid_nonneg E p h
  unfold Sheet.GetCell Sheet.cellAt
  simp only [h, if_true, hr, hc, and_self]
  split
  · rename_i hout
    unfold Sheet.IsOutSheet at hout
    simp only [Bool.or_eq_true, decide_eq_true_eq, List.getD_eq_getElem?_getD] at hout
    unfold slot
    rcases hout with hout | hout
    · rw [List.getElem?_eq_none (by omega)]
    · cases hrow : s.sheet_[p.row.toNat]? with
      | none => rfl
      | some cells =>
        simp only [hrow, Option.getD_some] at hout
        simp only
        rw [List.getElem?_eq_none (by omega)]
  · rfl

theorem GetCell_invalid (E : Env) (s : Sheet) (p : Position) (h : p.IsValid E = false) :
    s.GetCell E p = .error .InvalidPosition := by
  unfold Sheet.GetCell
  simp [h]

/-! ## Invalid positions and `ClearCell` -/

/-- C8: at a position that is not valid, `SetCell`, `GetCell` and `ClearCell`
each throw `InvalidPosition`, and the sheet they leave is the sheet they were
called on. -/
theorem invalid_position_rejected (E : Env) (s : Sheet) (pos : Position) (text : String)
    (fuel : Nat) (h : pos.IsValid E = false) :
    SetCell E (fuel + 1) s pos text = .threw .InvalidPosition s ∧
      s.GetCell E pos = .error .InvalidPosition ∧
      ClearCell E s pos = .threw .InvalidPosition s := by
  refine ⟨?_, GetCell_invalid E s pos h, ?_⟩
  · simp [SetCell, h]
  · simp [ClearCell, h]

theorem invalid_position_rejected_witness :
    Position.IsValid exampleEnv { row := -1, col := 0 } = false ∧
      SetCell exampleEnv (0 + 1) sheetWithA1 { row := -1, col := 0 } "1" =
        .threw .InvalidPosition sheetWithA1 ∧
      sheetWithA1.GetCell exampleEnv { row := -1, col := 0 } = .error .InvalidPosition ∧
      ClearCell exampleEnv sheetWithA1 { row := -1, col := 0 } =
        .threw .InvalidPosition sheetWithA1 :=
  ⟨by decide, invalid_position_rejected exampleEnv sheetWithA1 { row := -1, col := 0 } "1" 0
    (by decide)⟩

/-- C9: at a valid position `p`, `ClearCell(p)` returns; afterwards `GetCell(p)`
returns no cell; at every other position `GetCell` returns what it returned
before (the same cell, so the same text, or the same exception); and if `p` held
no cell the sheet is the sheet before the call. -/
theorem ClearCell_removes_one_slot (E : Env) (s : Sheet) (p : Position)
    (h : p.IsValid E = true) :
    ∃ s', ClearCell E s p = .done s' ∧ s'.GetCell E p = .ok none ∧
      (∀ q, q ≠ p → s'.GetCell E q = s.GetCell E q) ∧
      (s.GetCell E p = .ok none → s' = s) := by
  obtain ⟨hr, hc⟩ := valid_nonneg E p h
  have hcell : ∀ q, (s.put p none).GetCell E q =
      if q = p then .ok none else s.GetCell E q := by
    intro q
    by_cases hq : q.IsValid E = true
    · rw [GetCell_valid E _ q hq, GetCell_valid E _ q hq, cellAt_put_none s p q hr hc]
      split <;> rfl
    · have hq' : q.IsValid E = false := by simpa using hq
      rw [GetCell_invalid E _ q hq', GetCell_invalid E _ q hq']
      have : q ≠ p := fun e => by rw [e, h] at hq'; cases hq'
      simp [this]
  cases hget : s.cellAt p with
  | none =>
    refine ⟨s, ?_, ?_, fun _ _ => rfl, fun _ => rfl⟩
    · simp [ClearCell, h, GetCell_valid E s p h, hget]
    · rw [GetCell_valid E s p h, hget]
  | some c =>
    refine ⟨s.put p none, ?_, ?_, ?_, ?_⟩
    · simp [ClearCell, h, GetCell_valid E s p h, hget]
    · rw [hcell]; simp
    · intro q hq
      rw [hcell]; simp [hq]
    · intro hnone
      rw [GetCell_valid E s p h, hget] at hnone
      cases hnone

theorem ClearCell_removes_one_slot_witness :
    Position.IsValid exampleEnv A1 = true ∧
    ∃ s', ClearCell exampleEnv sheetWithA1 A1 = .done s' ∧ s'.GetCell exampleEnv A1 = .ok none ∧
      (∀ q, q ≠ A1 → s'.GetCell exampleEnv q = sheetWithA1.GetCell exampleEnv q) ∧
      (sheetWithA1.GetCell exampleEnv A1 = .ok none → s' = sheetWithA1) :=
  ⟨by decide, ClearCell_removes_one_slot exampleEnv sheetWithA1 A1 (by decide)⟩

/-! ## The examples of the specification, run on the code -/

/-- C1 (the code at the failing input): with A1 `1` and B1 `=A1*2`,
`GetValue(B1)` returns 2 and B1 keeps it as its cache; A1 has no dependent
recorded.  `SetCell(A1, "5")` returns, B1 still holds the cached 2 and
`GetValue(B1)` returns 2; the same three writes on a sheet where B1 was never
read make `GetValue(B1)` return 10. -/
theorem write_leaves_stale_cache :
    valueAt exampleEnv 8 (afterCalls exampleEnv writeExample Sheet.empty) B1 = some (.Number 2) ∧
    edgesAt (afterCalls exampleEnv writeExample Sheet.empty) A1 = some ([], []) ∧
    (callOn exampleEnv 8 (afterCalls exampleEnv writeExample Sheet.empty)
      (.SetCell A1 "5")).returned = true ∧
    cacheAt (callOn exampleEnv 8 (afterCalls exampleEnv writeExample Sheet.empty)
      (.SetCell A1 "5")).sheet B1 = some (some (.Number 2)) ∧
    valueAt exampleEnv 8 (callOn exampleEnv 8 (afterCalls exampleEnv writeExample Sheet.empty)
      (.SetCell A1 "5")).sheet B1 = some (.Number 2) ∧
    valueAt exampleEnv 8 (afterCalls exampleEnv
      [(8, .SetCell A1 "1"), (8, .SetCell B1 "=A1*2"), (8, .SetCell A1 "5")] Sheet.empty) B1 =
      some (.Number 10) := by
  decide

/-- C3 (the code at the failing input): on the empty sheet `SetCell(A1, "=A1")`
throws `CircularDependency` and leaves a cell at A1, one without content, so
that the printable size, 0 by 0 before the call, is 1 by 1 after it. -/
theorem failed_SetCell_leaves_cell :
    (callOn exampleEnv 8 (some Sheet.empty) (.SetCell A1 "=A1")).thrown =
      some .CircularDependency ∧
    presentAt (some Sheet.empty) A1 = some (false, false) ∧
    presentAt (callOn exampleEnv 8 (some Sheet.empty) (.SetCell A1 "=A1")).sheet A1 =
      some (true, false) ∧
    Sheet.empty.GetPrintableSize = { rows := 0, cols := 0 } ∧
    (callOn exampleEnv 8 (some Sheet.empty) (.SetCell A1 "=A1")).sheet.map
      Sheet.GetPrintableSize = some { rows := 1, cols := 1 } := by
  decide

/-- C6 (the code at the failing input): with A1 `5` and B1 `=A1`, once
`GetValue(B1)` has returned 5, `ClearCell(A1)` removes A1 and `GetValue(B1)` still
returns 5, the value cached from the earlier content of A1; on the sheet where B1
was not read before the clear the formula reads A1 as empty and the value is 0. -/
theorem cleared_reference_reads_stale :
    presentAt (afterCalls exampleEnv clearExample Sheet.empty) A1 = some (false, false) ∧
    valueAt exampleEnv 8 (afterCalls exampleEnv clearExample Sheet.empty) B1 =
      some (.Number 5) ∧
    valueAt exampleEnv 8 (afterCalls exampleEnv
      [(8, .SetCell A1 "5"), (8, .SetCell B1 "=A1"), (8, .ClearCell A1)] Sheet.empty) B1 =
      some (.Number 0) := by
  decide

/-- C7 (the code at the failing input): after B1 is set to `=A1` and A1 is
cleared, B1 still stores the pointer to the destroyed cell and A1 holds no cell;
`SetCell(B1, "x")` then dereferences that pointer in `ClearCellReferences` and
neither returns nor throws. -/
theorem SetCell_text_after_clear_undefined :
    edgesAt (afterCalls exampleEnv staleExample Sheet.empty) B1 = some ([], [1]) ∧
    presentAt (afterCalls exampleEnv staleExample Sheet.empty) A1 = some (false, false) ∧
    (callOn exampleEnv 8 (afterCalls exampleEnv staleExample Sheet.empty)
      (.SetCell B1 "x")).isUndefined = true ∧
    (callOn exampleEnv 8 (afterCalls exampleEnv staleExample Sheet.empty)
      (.SetCell B1 "x")).returned = false := by
  decide

/-! ## Cycle detection -/

theorem GetCell_ok (E : Env) (s : Sheet) (pos : Position) (x : Option Cell)
    (h : s.GetCell E pos = .ok x) : pos.IsValid E = true ∧ x = s.cellAt pos := by
  by_cases hv : pos.IsValid E = true
  · rw [GetCell_valid E s pos hv] at h
    injection h with h
    exact ⟨hv, h.symm⟩
  · have hv' : pos.IsValid E = false := by simpa using hv
    rw [GetCell_invalid E s pos hv'] at h
    cases h

theorem mem_setInsert {α : Type} [DecidableEq α] (a b : α) (l : List α) :
    a ∈ setInsert b l ↔ a = b ∨ a ∈ l := by
  unfold setInsert
  split
  · constructor
    · exact Or.inr
    · rintro (h | h)
      · subst h; assumption
      · exact h
  · simp

theorem reach_absent (s : Sheet) (self pos : Position) (hself : (s.cellAt self).isSome = true)
    (habs : s.cellAt pos = none) : ¬ Relation.ReflTransGen (Refs s) pos self := by
  intro h
  rcases Relation.ReflTransGen.cases_head h with h | ⟨c, ⟨cell, impl, hc, _, _⟩, _⟩
  · subst h
    rw [habs] at hself
    cases hself
  · rw [habs] at hc
    cases hc

theorem reach_step (s : Sheet) (self pos : Position) (cell : Cell) (cells : List Position)
    (hne : pos ≠ self) (hcell : s.cellAt pos = some cell)
    (hcells : cell.GetReferencedCells = some cells) :
    Relation.ReflTransGen (Refs s) pos self ↔
      ∃ c ∈ cells, Relation.ReflTransGen (Refs s) c self := by
  unfold Cell.GetReferencedCells at hcells
  constructor
  · intro h
    rcases Relation.ReflTransGen.cases_head h with h | ⟨c, ⟨cell', impl, hc, himpl, hmem⟩, hrest⟩
    · exact absurd h hne
    · rw [hcell] at hc
      injection hc with hc
      subst hc
      rw [himpl] at hcells
      simp only [Option.map_some', Option.some.injEq] at hcells
      subst hcells
      exact ⟨c, hmem, hrest⟩
  · rintro ⟨c, hmem, hrest⟩
    cases himpl : cell.impl_ with
    | none => rw [himpl] at hcells; cases hcells
    | some impl =>
      rw [himpl] at hcells
      simp only [Option.map_some', Option.some.injEq] at hcells
      subst hcells
      exact Relation.ReflTransGen.head ⟨cell, impl, hcell, himpl, hmem⟩ hrest

theorem cyclicLoop_sound (E : Env) (s : Sheet) (self : Position)
    (hself : (s.cellAt self).isSome = true)
    (recur : List Position → List Position → Res (Bool × List Position))
    (hrec : SearchSound s self recur) : SearchSound s self (cyclicLoop E s self recur) := by
  intro l
  induction l with
  | nil =>
    intro v b v' hv h
    simp only [cyclicLoop, Res.ok.injEq, Prod.mk.injEq] at h
    obtain ⟨hb, hv'⟩ := h
    subst hb hv'
    simp [hv]
  | cons pos rest ih =>
    intro v b v' hv h
    rw [cyclicLoop] at h
    cases hget : s.GetCell E pos with
    | error e => rw [hget] at h; cases h
    | ok found =>
      obtain ⟨_, hfound⟩ := GetCell_ok E s pos found hget
      rw [hget] at h
      cases found with
      | none =>
        simp only at h
        obtain ⟨h1, h2⟩ := ih v b v' hv h
        refine ⟨h1, h2.trans ?_⟩
        have := reach_absent s self pos hself hfound.symm
        simp [this]
      | some ref_cell =>
        simp only [hv, if_false] at h
        by_cases hpos : pos = self
        · simp only [hpos, if_true, Res.ok.injEq, Prod.mk.injEq] at h
          obtain ⟨hb, hv'⟩ := h
          subst hb hv' hpos
          exact ⟨hv, by simp; exact Or.inl Relation.ReflTransGen.refl⟩
        · simp only [hpos, if_false] at h
          cases hcells : ref_cell.GetReferencedCells with
          | none => rw [hcells] at h; cases h
          | some cells =>
            rw [hcells] at h
            simp only at h
            have hins : self ∉ setInsert pos v := by
              rw [mem_setInsert]
              rintro (h1 | h1)
              · exact hpos h1.symm
              · exact hv h1
            have hstep := reach_step s self pos ref_cell cells hpos hfound.symm hcells
            cases hr : recur cells (setInsert pos v) with
            | threw e => rw [hr] at h; cases h
            | undefined => rw [hr] at h; cases h
            | outOfFuel => rw [hr] at h; cases h
            | ok res =>
              obtain ⟨b1, v1⟩ := res
              rw [hr] at h
              obtain ⟨hv1, hb1⟩ := hrec cells (setInsert pos v) b1 v1 hins hr
              cases b1 with
              | true =>
                simp only [Res.ok.injEq, Prod.mk.injEq] at h
                obtain ⟨hb, hv'⟩ := h
                subst hb hv'
                refine ⟨hv1, by simp; exact Or.inl (hstep.mpr (hb1.mp rfl))⟩
              | false =>
                simp only at h
                obtain ⟨h1, h2⟩ := ih v1 b v' hv1 h
                refine ⟨h1, h2.trans ?_⟩
                have hno : ¬ Relation.ReflTransGen (Refs s) pos self := by
                  intro hp
                  have := hb1.mpr (hstep.mp hp)
                  cases this
                simp [hno]

theorem HasCyclicDependenceRecursively_sound (E : Env) (s : Sheet) (self : Position)
    (hself : (s.cellAt self).isSome = true) (fuel : Nat) :
    SearchSound s self (HasCyclicDependenceRecursively E s self fuel) := by
  induction fuel with
  | zero =>
    intro l v b v' _ h
    simp [HasCyclicDependenceRecursively] at h
  | succ n ih =>
    intro l v b v' hv h
    rw [HasCyclicDependenceRecursively] at h
    exact cyclicLoop_sound E s self hself _ ih l v b v' hv h

theorem HasCyclicDependence_sound (E : Env) (s : Sheet) (self : Position)
    (hself : (s.cellAt self).isSome = true) (fuel : Nat) (l : List Position) (b : Bool)
    (h : HasCyclicDependence E fuel s self l = .ok b) :
    b = true ↔ ∃ c ∈ l, Relation.ReflTransGen (Refs s) c self := by
  unfold HasCyclicDependence at h
  cases hr : HasCyclicDependenceRecursively E s self fuel l [] with
  | threw e => rw [hr] at h; cases h
  | undefined => rw [hr] at h; cases h
  | outOfFuel => rw [hr] at h; cases h
  | ok res =>
    obtain ⟨b1, v1⟩ := res
    rw [hr] at h
    simp only [Res.ok.injEq] at h
    subst h
    exact (HasCyclicDependenceRecursively_sound E s self hself fuel l [] b1 v1
      (List.not_mem_nil _) hr).2

theorem cyclicLoop_cons (E : Env) (s : Sheet) (self : Position)
    (recur : List Position → List Position → Res (Bool × List Position))
    (pos : Position) (rest v : List Position) :
    cyclicLoop E s self recur (pos :: rest) v =
      match cyclicLoop E s self recur [pos] v with
      | .ok (true, v1) => .ok (true, v1)
      | .ok (false, v1) => cyclicLoop E s self recur rest v1
      | .threw e => .threw e
      | .undefined => .undefined
      | .outOfFuel => .outOfFuel := by
  simp only [cyclicLoop]
  cases s.GetCell E pos with
  | error e => rfl
  | ok found =>
    cases found with
    | none => rfl
    | some ref_cell =>
      simp only
      by_cases hv : self ∈ v
      · simp only [hv, if_true]
      · simp only [hv, if_false]
        by_cases hpos : pos = self
        · simp only [hpos, if_true]
        · simp only [hpos, if_false]
          cases ref_cell.GetReferencedCells with
          | none => rfl
          | some cells =>
            simp only
            cases recur cells (setInsert pos v) with
            | threw e => rfl
            | undefined => rfl
            | outOfFuel => rfl
            | ok res =>
              obtain ⟨b1, v1⟩ := res
              cases b1 <;> rfl

theorem SearchTotal_nil (E : Env) (s : Sheet) (self : Position) : SearchTotal E s self [] := by
  refine ⟨1, fun fuel hfuel v => ?_⟩
  obtain ⟨n, rfl⟩ : ∃ n, fuel = n + 1 := ⟨fuel - 1, by omega⟩
  rw [HasCyclicDependenceRecursively, cyclicLoop]
  exact ⟨_, rfl⟩

theorem SearchTotal_cons (E : Env) (s : Sheet) (self : Position) (pos : Position)
    (rest : List Position) (h1 : SearchTotal E s self [pos]) (h2 : SearchTotal E s self rest) :
    SearchTotal E s self (pos :: rest) := by
  obtain ⟨N1, h1⟩ := h1
  obtain ⟨N2, h2⟩ := h2
  refine ⟨max (max N1 N2) 1, fun fuel hfuel v => ?_⟩
  obtain ⟨n, rfl⟩ : ∃ n, fuel = n + 1 := ⟨fuel - 1, by omega⟩
  obtain ⟨r1, hr1⟩ := h1 (n + 1) (by omega) v
  rw [HasCyclicDependenceRecursively] at hr1 ⊢
  rw [cyclicLoop_cons, hr1]
  obtain ⟨b1, v1⟩ := r1
  cases b1 with
  | true => exact ⟨_, rfl⟩
  | false =>
    obtain ⟨r2, hr2⟩ := h2 (n + 1) (by omega) v1
    rw [HasCyclicDependenceRecursively] at hr2
    exact ⟨r2, hr2⟩

theorem SearchTotal_of_forall (E : Env) (s : Sheet) (self : Position) (l : List Position)
    (h : ∀ p ∈ l, SearchTotal E s self [p]) : SearchTotal E s self l := by
  induction l with
  | nil => exact SearchTotal_nil E s self
  | cons pos rest ih =>
    exact SearchTotal_cons E s self pos rest (h pos (List.mem_cons_self _ _))
      (ih (fun p hp => h p (List.mem_cons_of_mem _ hp)))

theorem SearchTotal_single (E : Env) (s : Sheet) (self pos : Position)
    (hvalid : pos.IsValid E = true)
    (hcell : ∀ cell, s.cellAt pos = some cell → pos ≠ self →
      ∃ cells, cell.GetReferencedCells = some cells ∧ SearchTotal E s self cells) :
    SearchTotal E s self [pos] := by
  have hget := GetCell_valid E s pos hvalid
  cases hfound : s.cellAt pos with
  | none =>
    rw [hfound] at hget
    refine ⟨1, fun fuel hfuel v => ?_⟩
    obtain ⟨n, rfl⟩ : ∃ n, fuel = n + 1 := ⟨fuel - 1, by omega⟩
    rw [HasCyclicDependenceRecursively, cyclicLoop, hget]
    simp only [cyclicLoop]
    exact ⟨_, rfl⟩
  | some cell =>
    rw [hfound] at hget
    by_cases hpos : pos = self
    · refine ⟨1, fun fuel hfuel v => ?_⟩
      obtain ⟨n, rfl⟩ : ∃ n, fuel = n + 1 := ⟨fuel - 1, by omega⟩
      rw [HasCyclicDependenceRecursively, cyclicLoop, hget]
      simp only [cyclicLoop, hpos, if_true]
      by_cases hv : self ∈ v
      · simp only [hv, if_true]
        exact ⟨_, rfl⟩
      · simp only [hv, if_false]
        exact ⟨_, rfl⟩
    · obtain ⟨cells, hcells, N, hN⟩ := hcell cell hfound hpos
      refine ⟨N + 1, fun fuel hfuel v => ?_⟩
      obtain ⟨n, rfl⟩ : ∃ n, fuel = n + 1 := ⟨fuel - 1, by omega⟩
      rw [HasCyclicDependenceRecursively, cyclicLoop, hget]
      simp only [cyclicLoop, hpos, if_false, hcells]
      by_cases hv : self ∈ v
      · simp only [hv, if_true]
        exact ⟨_, rfl⟩
      · simp only [hv, if_false]
        obtain ⟨r, hr⟩ := hN n (by omega) (setInsert pos v)
        rw [hr]
        obtain ⟨b1, v1⟩ := r
        cases b1 <;> exact ⟨_, rfl⟩

theorem row_length_le_sum (g : List (List (Option Cell))) (r : Nat) (cells : List (Option Cell))
    (h : g[r]? = some cells) : cells.length ≤ (g.map List.length).sum := by
  induction g generalizing r with
  | nil => simp at h
  | cons x t ih =>
    cases r with
    | zero =>
      simp only [List.getElem?_cons_zero, Option.some.injEq] at h
      subst h
      simp
    | succ n =>
      simp only [List.getElem?_cons_succ] at h
      have := ih n h
      simp only [List.map_cons, List.sum_cons]
      omega

theorem finite_present (s : Sheet) : {p : Position | (s.cellAt p).isSome = true}.Finite := by
  apply Set.Finite.subset
    ((Finset.range s.sheet_.length ×ˢ Finset.range ((s.sheet_.map List.length).sum + 1)).image
      (fun rc => ({ row := (rc.1 : Int), col := (rc.2 : Int) } : Position))).finite_toSet
  intro p hp
  simp only [Set.mem_setOf_eq] at hp
  cases hc : s.cellAt p with
  | none => rw [hc] at hp; cases hp
  | some c =>
    obtain ⟨h1, h2, h3, h4⟩ := cellAt_inRange s p c hc
    simp only [Finset.coe_image, Set.mem_image, Finset.mem_coe, Finset.mem_product,
      Finset.mem_range, Prod.exists]
    refine ⟨p.row.toNat, p.col.toNat, ⟨h3, ?_⟩, ?_⟩
    · rw [List.getD_eq_getElem?_getD, List.getElem?_eq_getElem h3, Option.getD_some] at h4
      have := row_length_le_sum s.sheet_ p.row.toNat _ (List.getElem?_eq_getElem h3)
      omega
    · obtain ⟨row, col⟩ := p
      simp only [Position.mk.injEq]
      simp only at h1 h2
      constructor <;> omega

theorem acc_refs (s : Sheet) (hac : Acyclic s) (p : Position) :
    Acc (fun q p => Refs s p q) p := by
  let r : Position → Position → Prop := fun a b => Relation.TransGen (Refs s) b a
  haveI : IsStrictOrder Position r :=
    { irrefl := fun a h => hac a h
      trans := fun a b c hab hbc => Relation.TransGen.trans hbc hab }
  have hwf := Set.Finite.wellFoundedOn (r := r) (finite_present s)
  rw [Set.wellFoundedOn_iff] at hwf
  have absent : ∀ p, ¬ (s.cellAt p).isSome = true → Acc (fun q p => Refs s p q) p := by
    intro p hp
    constructor
    intro q hq
    obtain ⟨cell, _, hcell, _, _⟩ := hq
    rw [hcell] at hp
    exact absurd rfl hp
  by_cases hp : (s.cellAt p).isSome = true
  · induction p using hwf.induction with
    | _ p ih =>
      constructor
      intro q hq
      by_cases hqp : (s.cellAt q).isSome = true
      · exact ih q ⟨Relation.TransGen.single hq, hqp, hp⟩ hqp
      · exact absent q hqp
  · exact absent p hp

theorem SearchTotal_of_acyclic (E : Env) (s : Sheet) (self : Position) (hac : Acyclic s)
    (hcontent : ∀ q c, q ≠ self → s.cellAt q = some c → c.impl_.isSome = true)
    (hrefs : ∀ p q, p ≠ self → Refs s p q → q.IsValid E = true) (p : Position)
    (hvalid : p.IsValid E = true) : SearchTotal E s self [p] := by
  induction acc_refs s hac p with
  | intro p _ ih =>
    apply SearchTotal_single E s self p hvalid
    intro cell hcell hne
    have hsome := hcontent p cell hne hcell
    cases himpl : cell.impl_ with
    | none => rw [himpl] at hsome; cases hsome
    | some impl =>
      refine ⟨impl.GetReferencedCells, by simp [Cell.GetReferencedCells, himpl], ?_⟩
      apply SearchTotal_of_forall
      intro c hc
      have hedge : Refs s p c := ⟨cell, impl, hcell, himpl, hc⟩
      exact ih c hedge (hrefs p c hne hedge)

/-- C2, as amended: let the reference graph of the sheet be acyclic, let the
cell C be at `self`, let every other cell have content, and let the candidate
positions and the positions referenced by the other cells be valid.  Then, once
the budget is large enough, `HasCyclicDependence(candidates)` on C returns, and it
returns true exactly when C is a candidate or can be reached from a candidate
along the referenced positions of the cells of the sheet. -/
theorem HasCyclicDependence_exact (E : Env) (s : Sheet) (self : Position)
    (candidates : List Position) (hself : (s.cellAt self).isSome = true) (hac : Acyclic s)
    (hcontent : ∀ q c, q ≠ self → s.cellAt q = some c → c.impl_.isSome = true)
    (hcand : ∀ q ∈ candidates, q.IsValid E = true)
    (hrefs : ∀ p q, p ≠ self → Refs s p q → q.IsValid E = true) :
    ∃ N, ∀ fuel, N ≤ fuel → ∃ b, HasCyclicDependence E fuel s self candidates = .ok b ∧
      (b = true ↔ ∃ c ∈ candidates, Relation.ReflTransGen (Refs s) c self) := by
  obtain ⟨N, hN⟩ := SearchTotal_of_forall E s self candidates
    (fun p hp => SearchTotal_of_acyclic E s self hac hcontent hrefs p (hcand p hp))
  refine ⟨N, fun fuel hfuel => ?_⟩
  obtain ⟨⟨b, v⟩, hr⟩ := hN fuel hfuel []
  have hres : HasCyclicDependence E fuel s self candidates = .ok b := by
    simp [HasCyclicDependence, hr]
  exact ⟨b, hres, HasCyclicDependence_sound E s self hself fuel candidates b hres⟩

/-! ## What a write does to the cells -/

theorem InvalidateCache_nil (fuel : Nat) (s : Sheet) : InvalidateCache fuel s [] = .ok s := by
  simp [InvalidateCache, forEachDependent]

theorem updated_of_put (s : Sheet) (p : Position) (this c : Cell) (h : s.cellAt p = some this) :
    Updated s (s.put p (some c)) p c := fun q => cellAt_put_of_some s p q (some c) this h

theorem updated_of_modify (s : Sheet) (p : Position) (this : Cell) (f : Cell → Cell)
    (h : s.cellAt p = some this) : Updated s (s.modify p f) p (f this) := by
  intro q
  rw [cellAt_modify, h]
  rfl

theorem Updated.self {s s1 : Sheet} {p : Position} {c : Cell} (h : Updated s s1 p c) :
    s1.cellAt p = some c := by
  rw [h p, if_pos rfl]

theorem Updated.other {s s1 : Sheet} {p : Position} {c : Cell} (h : Updated s s1 p c)
    {q : Position} (hq : q ≠ p) : s1.cellAt q = s.cellAt q := by
  rw [h q, if_neg hq]

theorem Updated.andThen {s s1 s2 : Sheet} {p : Position} {c c' : Cell} (h1 : Updated s s1 p c)
    (h2 : Updated s1 s2 p c') : Updated s s2 p c' := by
  intro q
  rw [h2 q]
  split
  · rfl
  · rename_i hq
    exact h1.other hq

theorem ClearCellReferences_spec (fuel : Nat) (s : Sheet) (self : Position) (this : Cell)
    (hthis : s.cellAt self = some this) (hdep : this.dependent_cells_ = []) :
    ClearCellReferences fuel s self = .undefined ∨
      ∃ s1, ClearCellReferences fuel s self = .ok s1 ∧
        Updated s s1 self { this with referencing_cells_ := [] } := by
  unfold ClearCellReferences
  simp only [hthis, hdep, InvalidateCache_nil]
  split
  · exact Or.inr ⟨_, rfl, updated_of_put s self this _ hthis⟩
  · exact Or.inl rfl

theorem SetCell_absent (E : Env) (m : Nat) (s : Sheet) (pos : Position) (text : String)
    (hvalid : pos.IsValid E = true) (habs : s.cellAt pos = none) :
    ∃ s0, Updated s s0 pos (Cell.create s.fresh) ∧
      SetCell E (m + 2) s pos text = Cell.Set E (SetCell E m) m s0 pos text := by
  obtain ⟨hr, hc⟩ := valid_nonneg E pos hvalid
  refine ⟨{ ((s.SetSize pos).put pos (some (Cell.create s.fresh))) with fresh := s.fresh + 1 },
    fun q => cellAt_create s pos q _ _ hr hc, ?_⟩
  have h0 : Sheet.cellAt { ((s.SetSize pos).put pos (some (Cell.create s.fresh))) with
      fresh := s.fresh + 1 } pos = some (Cell.create s.fresh) := by
    rw [cellAt_create s pos pos _ _ hr hc, if_pos rfl]
  rw [SetCell]
  simp only [hvalid, if_true, GetCell_valid E s pos hvalid, habs]
  rw [SetCell]
  simp only [hvalid, if_true, GetCell_valid E _ pos hvalid, h0]

theorem SetCell_present (E : Env) (m : Nat) (s : Sheet) (pos : Position) (text : String)
    (this : Cell) (hvalid : pos.IsValid E = true) (hthis : s.cellAt pos = some this) :
    SetCell E (m + 1) s pos text = Cell.Set E (SetCell E m) m s pos text := by
  rw [SetCell]
  simp only [hvalid, if_true, GetCell_valid E s pos hvalid, hthis]

theorem Cell_Set_empty (E : Env) (setCell : Sheet → Position → String → Outcome) (fuel : Nat)
    (s : Sheet) (self : Position) (this : Cell) (hthis : s.cellAt self = some this)
    (hdep : this.dependent_cells_ = []) (href : this.referencing_cells_ = []) :
    ∃ s1, Cell.Set E setCell fuel s self "" = .done s1 ∧
      Updated s s1 self { this with impl_ := some .EmptyImpl } := by
  obtain ⟨addr, impl, deps, refs⟩ := this
  simp only at hdep href
  subst hdep href
  have h1 := updated_of_put s self _
    { addr := addr, impl_ := impl, dependent_cells_ := [], referencing_cells_ := [] } hthis
  have h2 := updated_of_modify (s.put self (some
    { addr := addr, impl_ := impl, dependent_cells_ := [], referencing_cells_ := [] })) self _
    (fun this => { this with impl_ := some Impl.EmptyImpl }) h1.self
  refine ⟨_, ?_, h1.andThen h2⟩
  unfold Cell.Set ClearCellReferences
  simp only [hthis, InvalidateCache_nil, List.all_nil, if_true]

theorem SetCell_placeholder (E : Env) (m : Nat) (s : Sheet) (pos : Position)
    (hvalid : pos.IsValid E = true) (habs : s.cellAt pos = none) :
    SetCell E m s pos "" = .outOfFuel ∨
      ∃ s1, SetCell E m s pos "" = .done s1 ∧
        Updated s s1 pos { Cell.create s.fresh with impl_ := some .EmptyImpl } := by
  match m with
  | 0 => exact Or.inl (by simp [SetCell])
  | 1 =>
    left
    rw [SetCell]
    simp only [hvalid, if_true, GetCell_valid E s pos hvalid, habs]
    rw [SetCell]
  | m + 2 =>
    right
    obtain ⟨s0, h0, heq⟩ := SetCell_absent E m s pos "" hvalid habs
    obtain ⟨s1, h1, h2⟩ := Cell_Set_empty E (SetCell E m) m s0 pos (Cell.create s.fresh)
      h0.self rfl rfl
    exact ⟨s1, by rw [heq, h1], h0.andThen h2⟩

theorem Extends.of_same (s : Sheet) (self : Position) (l : List Position) : Extends s s self l :=
  fun _ _ => Or.inl rfl

theorem Extends.append {s s1 s2 : Sheet} {self : Position} {l1 l2 : List Position}
    (h1 : Extends s s1 self l1) (h2 : Extends s1 s2 self l2) :
    Extends s s2 self (l1 ++ l2) := by
  intro q hq
  rcases h2 q hq with h | ⟨hnone, hmem, c, hc, hp⟩
  · rcases h1 q hq with h' | ⟨hnone', hmem', c, hc, hp⟩
    · exact Or.inl (h.trans h')
    · exact Or.inr ⟨hnone', List.mem_append_left _ hmem', c, h.trans hc, hp⟩
  · rcases h1 q hq with h' | ⟨_, _, c', hc', _⟩
    · exact Or.inr ⟨h'.symm.trans hnone, List.mem_append_right _ hmem, c, hc, hp⟩
    · rw [hnone] at hc'
      cases hc'

theorem Extends.of_updated_self {s s1 : Sheet} {self : Position} {c : Cell}
    (h : Updated s s1 self c) (l : List Position) : Extends s s1 self l :=
  fun _ hq => Or.inl (h.other hq)

theorem Extends.isSome {s s1 : Sheet} {self : Position} {l : List Position}
    (h : Extends s s1 self l) {q : Position} (hq : q ≠ self)
    (hs : (s.cellAt q).isSome = true) : (s1.cellAt q).isSome = true := by
  rcases h q hq with h | ⟨hnone, _, _, _, _⟩
  · rw [h]; exact hs
  · rw [hnone] at hs; cases hs

theorem AddCellReferences_spec (E : Env) (m : Nat) (self : Position) (refs : List Position)
    (hvalid : ∀ p ∈ refs, p.IsValid E = true) :
    ∀ (s : Sheet) (this : Cell), s.cellAt self = some this →
      AddCellReferences E (SetCell E m) self refs s = .outOfFuel ∨
      ∃ s', AddCellReferences E (SetCell E m) self refs s = .done s' ∧
        Extends s s' self refs ∧ (∀ q ∈ refs, (s'.cellAt q).isSome = true) ∧
        ∃ R, s'.cellAt self = some { this with referencing_cells_ := R } := by
  induction refs with
  | nil =>
    intro s this hthis
    exact Or.inr ⟨s, rfl, Extends.of_same s self [], by simp, this.referencing_cells_, hthis⟩
  | cons pos rest ih =>
    intro s this hthis
    have hpos := hvalid pos (List.mem_cons_self _ _)
    have ih' := ih (fun p hp => hvalid p (List.mem_cons_of_mem _ hp))
    -- the sheet once the cell at `pos` is there
    have hcreated : SetCell E m s pos "" = .outOfFuel ∧ s.cellAt pos = none ∨
        ∃ s1 cell, (match s.cellAt pos with
            | none => SetCell E m s pos ""
            | some _ => Outcome.done s) = .done s1 ∧
          Extends s s1 self [pos] ∧ s1.cellAt pos = some cell ∧ s1.cellAt self = some this := by
      cases hfound : s.cellAt pos with
      | none =>
        have hne : pos ≠ self := fun e => by rw [e, hthis] at hfound; cases hfound
        rcases SetCell_placeholder E m s pos hpos hfound with h | ⟨s1, h, hup⟩
        · exact Or.inl ⟨h, rfl⟩
        · refine Or.inr ⟨s1, _, h, ?_, hup.self, ?_⟩
          · intro q _
            by_cases hq : q = pos
            · subst hq
              exact Or.inr ⟨hfound, List.mem_singleton.mpr rfl, _, hup.self, rfl, rfl, rfl⟩
            · exact Or.inl (hup.other hq)
          · rw [hup.other hne.symm, hthis]
      | some cell =>
        exact Or.inr ⟨s, cell, rfl, Extends.of_same s self [pos], hfound, hthis⟩
    rw [AddCellReferences]
    simp only [GetCell_valid E s pos hpos]
    rcases hcreated with ⟨hout, hnone⟩ | ⟨s1, cell, hdone, hext, hcell, hself⟩
    · left
      simp only [hnone, hout]
    · rw [hdone]
      simp only [GetCell_valid E s1 pos hpos, hcell]
      have hup := updated_of_modify s1 self this
        (fun this => { this with
          referencing_cells_ := setInsert cell.addr this.referencing_cells_ }) hself
      rcases ih' _ _ hup.self with h | ⟨s', h, hext', hpres, R, hR⟩
      · exact Or.inl h
      · refine Or.inr ⟨s', h, ?_, ?_, R, hR⟩
        · exact (hext.append (Extends.of_updated_self hup [])).append hext'
        · intro q hq
          rcases List.mem_cons.mp hq with hq | hq
          · subst hq
            by_cases hqs : q = self
            · subst hqs
              rw [hR]; rfl
            · have h2 := hup.other hqs
              exact hext'.isSome hqs (by rw [h2, hcell]; rfl)
          · exact hpres q hq

theorem cyclicLoop_false_valid (E : Env) (s : Sheet) (self : Position)
    (recur : List Position → List Position → Res (Bool × List Position)) :
    ∀ l v v', cyclicLoop E s self recur l v = .ok (false, v') → ∀ p ∈ l, p.IsValid E = true := by
  intro l
  induction l with
  | nil => intro v v' _ p hp; cases hp
  | cons pos rest ih =>
    intro v v' h p hp
    rw [cyclicLoop_cons] at h
    cases h1 : cyclicLoop E s self recur [pos] v with
    | threw e => rw [h1] at h; cases h
    | undefined => rw [h1] at h; cases h
    | outOfFuel => rw [h1] at h; cases h
    | ok res =>
      obtain ⟨b1, v1⟩ := res
      rw [h1] at h
      cases b1 with
      | true => simp at h
      | false =>
        simp only at h
        rcases List.mem_cons.mp hp with hp | hp
        · subst hp
          rw [cyclicLoop] at h1
          cases hget : s.GetCell E p with
          | error e => rw [hget] at h1; cases h1
          | ok found => exact (GetCell_ok E s p found hget).1
        · exact ih v1 v' h p hp

theorem HasCyclicDependence_false_valid (E : Env) (fuel : Nat) (s : Sheet) (self : Position)
    (l : List Position) (h : HasCyclicDependence E fuel s self l = .ok false) :
    ∀ p ∈ l, p.IsValid E = true := by
  unfold HasCyclicDependence at h
  cases fuel with
  | zero => simp [HasCyclicDependenceRecursively] at h
  | succ n =>
    rw [HasCyclicDependenceRecursively] at h
    cases hr : cyclicLoop E s self (HasCyclicDependenceRecursively E s self n) l [] with
    | threw e => rw [hr] at h; cases h
    | undefined => rw [hr] at h; cases h
    | outOfFuel => rw [hr] at h; cases h
    | ok res =>
      obtain ⟨b1, v1⟩ := res
      rw [hr] at h
      simp only [Res.ok.injEq] at h
      subst h
      exact cyclicLoop_false_valid E s self _ l [] v1 hr

theorem Cell_Set_spec (E : Env) (m fuel : Nat) (s : Sheet) (self : Position) (this : Cell)
    (text : String) (hthis : s.cellAt self = some this) (hdep : this.dependent_cells_ = []) :
    Cell.Set E (SetCell E m) fuel s self text = .undefined ∨
      Cell.Set E (SetCell E m) fuel s self text = .outOfFuel ∨
      SetSpec E s self this text (Cell.Set E (SetCell E m) fuel s self text) := by
  unfold Cell.Set
  rcases ClearCellReferences_spec fuel s self this hthis hdep with h | ⟨s1, h, hup⟩
  · left; rw [h]
  · rw [h]
    simp only
    by_cases hempty : text.data = []
    · right; right
      simp only [hempty, if_true]
      refine ⟨s1, hup, Or.inr (Or.inl ⟨hempty, _, rfl, ?_⟩)⟩
      exact hup.andThen (updated_of_modify s1 self _
        (fun this => { this with impl_ := some Impl.EmptyImpl }) hup.self)
    · simp only [hempty, if_false]
      by_cases hform : text.data.head? = some E.FORMULA_SIGN ∧ 1 < text.data.length
      · simp only [hform, and_self, if_true]
        cases hparse : ParseFormula E (String.mk (text.data.drop 1)) with
        | none => exact Or.inr (Or.inr ⟨s1, hup, Or.inl ⟨_, rfl⟩⟩)
        | some formula =>
          simp only
          cases hcyc : HasCyclicDependence E fuel s1 self formula.GetReferencedCells with
          | threw e => exact Or.inr (Or.inr ⟨s1, hup, Or.inl ⟨_, rfl⟩⟩)
          | undefined => exact Or.inl rfl
          | outOfFuel => exact Or.inr (Or.inl rfl)
          | ok b =>
            cases b with
            | true => exact Or.inr (Or.inr ⟨s1, hup, Or.inl ⟨_, rfl⟩⟩)
            | false =>
              simp only
              have hvalid := HasCyclicDependence_false_valid E fuel s1 self _ hcyc
              rcases AddCellReferences_spec E m self formula.GetReferencedCells hvalid s1 _
                hup.self with hadd | ⟨s2, hadd, hext, hpres, R, hR⟩
              · rw [hadd]
                exact Or.inr (Or.inl rfl)
              · rw [hadd]
                simp only
                have hup2 := updated_of_modify s2 self _
                  (fun this => { this with impl_ := some (Impl.FormulaImpl formula) }) hR
                refine Or.inr (Or.inr ⟨s1, hup, Or.inr (Or.inr (Or.inr
                  ⟨hform, formula, _, hparse, rfl, ⟨fuel, hcyc⟩, ?_, ?_, R, hup2.self⟩))⟩)
                · have := hext.append (Extends.of_updated_self hup2 [])
                  rwa [List.append_nil] at this
                · intro q hq
                  by_cases hqs : q = self
                  · subst hqs
                    rw [hup2.self]; rfl
                  · rw [hup2.other hqs]
                    exact hpres q hq
      · right; right
        simp only [hform, if_false]
        refine ⟨s1, hup, Or.inr (Or.inr (Or.inl ⟨hempty, hform, _, rfl, ?_⟩))⟩
        exact hup.andThen (updated_of_modify s1 self _
          (fun this => { this with impl_ := some (Impl.TextImpl text) }) hup.self)

theorem SetCell_spec (E : Env) (fuel : Nat) (s : Sheet) (pos : Position) (text : String)
    (hnd : NoDependents s) :
    SetCell E fuel s pos text = .undefined ∨ SetCell E fuel s pos text = .outOfFuel ∨
      SetCellSpec E s pos text (SetCell E fuel s pos text) := by
  by_cases hvalid : pos.IsValid E = true
  · cases hfound : s.cellAt pos with
    | some this =>
      match fuel with
      | 0 => exact Or.inr (Or.inl (by simp [SetCell]))
      | m + 1 =>
        rw [SetCell_present E m s pos text this hvalid hfound]
        rcases Cell_Set_spec E m m s pos this text hfound (hnd pos this hfound) with h | h | h
        · exact Or.inl h
        · exact Or.inr (Or.inl h)
        · exact Or.inr (Or.inr (Or.inr ⟨hvalid, s, this, Or.inl ⟨hfound, rfl⟩,
            hnd pos this hfound, h⟩))
    | none =>
      match fuel with
      | 0 => exact Or.inr (Or.inl (by simp [SetCell]))
      | 1 =>
        refine Or.inr (Or.inl ?_)
        rw [SetCell]
        simp only [hvalid, if_true, GetCell_valid E s pos hvalid, hfound]
        rw [SetCell]
      | m + 2 =>
        obtain ⟨s0, h0, heq⟩ := SetCell_absent E m s pos text hvalid hfound
        rw [heq]
        rcases Cell_Set_spec E m m s0 pos (Cell.create s.fresh) text h0.self rfl with h | h | h
        · exact Or.inl h
        · exact Or.inr (Or.inl h)
        · exact Or.inr (Or.inr (Or.inr ⟨hvalid, s0, _, Or.inr ⟨hfound, rfl, h0⟩, rfl, h⟩))
  · have hv : pos.IsValid E = false := by simpa using hvalid
    match fuel with
    | 0 => exact Or.inr (Or.inl (by simp [SetCell]))
    | m + 1 =>
      refine Or.inr (Or.inr (Or.inl ⟨hv, ?_⟩))
      simp [SetCell, hv]

theorem NoDependents.updated {s s1 : Sheet} {p : Position} {c : Cell} (h : NoDependents s)
    (hup : Updated s s1 p c) (hc : c.dependent_cells_ = []) : NoDependents s1 := by
  intro q c' hq
  rw [hup q] at hq
  split at hq
  · injection hq with hq
    subst hq
    exact hc
  · exact h q c' hq

theorem NoDependents.extends {s s1 : Sheet} {self : Position} {l : List Position} {c : Cell}
    (h : NoDependents s) (hext : Extends s s1 self l) (hself : s1.cellAt self = some c)
    (hc : c.dependent_cells_ = []) : NoDependents s1 := by
  intro q c' hq
  by_cases hqs : q = self
  · subst hqs
    rw [hself] at hq
    injection hq with hq
    subst hq
    exact hc
  · rcases hext q hqs with h1 | ⟨_, _, c2, h2, hp⟩
    · rw [h1] at hq
      exact h q c' hq
    · rw [h2] at hq
      injection hq with hq
      subst hq
      exact hp.2.1

theorem SetSpec.keeps_noDependents {E : Env} {s : Sheet} {self : Position} {this : Cell}
    {text : String} {out : Outcome} (h : SetSpec E s self this text out)
    (hnd : NoDependents s) (hdep : this.dependent_cells_ = []) (s' : Sheet)
    (hout : out.sheet = some s') : NoDependents s' := by
  obtain ⟨s1, hup, h⟩ := h
  have hnd1 : NoDependents s1 := hnd.updated hup hdep
  rcases h with ⟨e, he⟩ | ⟨_, s2, he, hup2⟩ | ⟨_, _, s2, he, hup2⟩ |
    ⟨_, formula, s2, _, he, _, hext, _, R, hR⟩
  all_goals
    subst he
    simp only [Outcome.sheet, Option.some.injEq] at hout
    subst hout
  · exact hnd1
  · exact hnd.updated hup2 hdep
  · exact hnd.updated hup2 hdep
  · exact hnd1.extends hext hR hdep

theorem SetCellSpec.leaves_noDependents {E : Env} {s : Sheet} {pos : Position} {text : String}
    {out : Outcome} (h : SetCellSpec E s pos text out) (hnd : NoDependents s) (s' : Sheet)
    (hout : out.sheet = some s') : NoDependents s' := by
  rcases h with ⟨_, he⟩ | ⟨_, s0, this, hbase, hdep, hset⟩
  · subst he
    simp only [Outcome.sheet, Option.some.injEq] at hout
    subst hout
    exact hnd
  · have hnd0 : NoDependents s0 := by
      rcases hbase with ⟨_, h0⟩ | ⟨_, _, h0⟩
      · subst h0; exact hnd
      · exact hnd.updated h0 hdep
    exact hset.keeps_noDependents hnd0 hdep s' hout

/-! ## The reference graph stays acyclic -/

theorem acyclic_mono {α : Type} {r r' : α → α → Prop} (h : ∀ a b, r' a b → r a b)
    (hac : ∀ p, ¬ Relation.TransGen r p p) : ∀ p, ¬ Relation.TransGen r' p p :=
  fun p hp => hac p (Relation.TransGen.mono h hp)

theorem path_after_new_edges {α : Type} {r r' : α → α → Prop} (a : α) (S : α → Prop)
    (hedge : ∀ p q, r' p q → (p = a ∧ S q) ∨ (p ≠ a ∧ r p q)) {x y : α}
    (h : Relation.TransGen r' x y) :
    Relation.TransGen r x y ∨ ∃ c, S c ∧ Relation.ReflTransGen r c y := by
  induction h with
  | single hxy =>
    rcases hedge _ _ hxy with ⟨_, hS⟩ | ⟨_, hr⟩
    · exact Or.inr ⟨_, hS, Relation.ReflTransGen.refl⟩
    · exact Or.inl (Relation.TransGen.single hr)
  | tail _ hzy ih =>
    rcases hedge _ _ hzy with ⟨_, hS⟩ | ⟨_, hr⟩
    · exact Or.inr ⟨_, hS, Relation.ReflTransGen.refl⟩
    · rcases ih with ih | ⟨c, hS, hc⟩
      · exact Or.inl (Relation.TransGen.tail ih hr)
      · exact Or.inr ⟨c, hS, Relation.ReflTransGen.tail hc hr⟩

theorem path_before_new_edges {α : Type} {r r' : α → α → Prop} (a : α) (S : α → Prop)
    (hedge : ∀ p q, r' p q → (p = a ∧ S q) ∨ (p ≠ a ∧ r p q)) {x y : α}
    (h : Relation.TransGen r' x y) :
    Relation.TransGen r x y ∨ Relation.ReflTransGen r x a := by
  induction h using Relation.TransGen.head_induction_on with
  | base hxy =>
    rcases hedge _ _ hxy with ⟨hx, _⟩ | ⟨_, hr⟩
    · subst hx
      exact Or.inr Relation.ReflTransGen.refl
    · exact Or.inl (Relation.TransGen.single hr)
  | ih hxz _ ih =>
    rcases hedge _ _ hxz with ⟨hx, _⟩ | ⟨_, hr⟩
    · subst hx
      exact Or.inr Relation.ReflTransGen.refl
    · rcases ih with ih | ih
      · exact Or.inl (Relation.TransGen.head hr ih)
      · exact Or.inr (Relation.ReflTransGen.head hr ih)

theorem acyclic_update {α : Type} {r r' : α → α → Prop} (a : α) (S : α → Prop)
    (hedge : ∀ p q, r' p q → (p = a ∧ S q) ∨ (p ≠ a ∧ r p q))
    (hac : ∀ p, ¬ Relation.TransGen r p p)
    (hno : ∀ c, S c → ¬ Relation.ReflTransGen r c a) : ∀ p, ¬ Relation.TransGen r' p p := by
  intro p hp
  rcases path_after_new_edges a S hedge hp with h | ⟨c, hS, hc⟩
  · exact hac p h
  · rcases path_before_new_edges a S hedge hp with h | h
    · exact hac p h
    · exact hno c hS (hc.trans h)

theorem Refs.of_updated {s s1 : Sheet} {p : Position} {c : Cell} (hup : Updated s s1 p c)
    (hc : ∀ impl b, c.impl_ = some impl → b ∈ impl.GetReferencedCells → Refs s p b)
    (a b : Position) (h : Refs s1 a b) : Refs s a b := by
  obtain ⟨cell, impl, hcell, himpl, hmem⟩ := h
  rw [hup a] at hcell
  split at hcell
  · rename_i hap
    injection hcell with hcell
    subst hcell hap
    exact hc impl b himpl hmem
  · exact ⟨cell, impl, hcell, himpl, hmem⟩

theorem SetSpec.keeps_acyclic {E : Env} {s : Sheet} {self : Position} {this : Cell}
    {text : String} {out : Outcome} (h : SetSpec E s self this text out)
    (hthis : s.cellAt self = some this) (hac : Acyclic s) (s' : Sheet)
    (hout : out.sheet = some s') : Acyclic s' := by
  obtain ⟨s1, hup, h⟩ := h
  have hsub1 : ∀ a b, Refs s1 a b → Refs s a b :=
    Refs.of_updated hup (fun impl b himpl hmem => ⟨this, impl, hthis, himpl, hmem⟩)
  have hac1 : Acyclic s1 := acyclic_mono hsub1 hac
  rcases h with ⟨e, he⟩ | ⟨_, s2, he, hup2⟩ | ⟨_, _, s2, he, hup2⟩ |
    ⟨_, formula, s2, _, he, ⟨n, hcyc⟩, hext, _, R, hR⟩
  all_goals
    subst he
    simp only [Outcome.sheet, Option.some.injEq] at hout
    subst hout
  · exact hac1
  · refine acyclic_mono (Refs.of_updated hup2 ?_) hac
    intro impl b himpl hmem
    simp only [Option.some.injEq] at himpl
    subst himpl
    cases hmem
  · refine acyclic_mono (Refs.of_updated hup2 ?_) hac
    intro impl b himpl hmem
    simp only [Option.some.injEq] at himpl
    subst himpl
    cases hmem
  · have hself1 : (s1.cellAt self).isSome = true := by rw [hup.self]; rfl
    have hsound := HasCyclicDependence_sound E s1 self hself1 n _ false hcyc
    apply acyclic_update (r := Refs s1) self (fun q => q ∈ formula.GetReferencedCells) ?_ hac1
    · intro c hc hreach
      have := hsound.mpr ⟨c, hc, hreach⟩
      cases this
    · intro p q hpq
      obtain ⟨cell, impl, hcell, himpl, hmem⟩ := hpq
      by_cases hp : p = self
      · subst hp
        rw [hR] at hcell
        injection hcell with hcell
        subst hcell
        simp only [Option.some.injEq] at himpl
        subst himpl
        exact Or.inl ⟨rfl, hmem⟩
      · right
        refine ⟨hp, ?_⟩
        rcases hext p hp with h1 | ⟨_, _, c2, h2, hpl⟩
        · exact ⟨cell, impl, h1 ▸ hcell, himpl, hmem⟩
        · rw [h2] at hcell
          injection hcell with hcell
          subst hcell
          rw [hpl.1] at himpl
          injection himpl with himpl
          subst himpl
          cases hmem

theorem SetCellSpec.leaves_acyclic {E : Env} {s : Sheet} {pos : Position} {text : String}
    {out : Outcome} (h : SetCellSpec E s pos text out) (hac : Acyclic s) (s' : Sheet)
    (hout : out.sheet = some s') : Acyclic s' := by
  rcases h with ⟨_, he⟩ | ⟨_, s0, this, hbase, _, hset⟩
  · subst he
    simp only [Outcome.sheet, Option.some.injEq] at hout
    subst hout
    exact hac
  · rcases hbase with ⟨hthis, h0⟩ | ⟨_, hcreate, h0⟩
    · subst h0
      exact hset.keeps_acyclic hthis hac s' hout
    · have hac0 : Acyclic s0 := by
        refine acyclic_mono (Refs.of_updated h0 ?_) hac
        intro impl b himpl _
        subst hcreate
        cases himpl
      exact hset.keeps_acyclic h0.self hac0 s' hout

theorem SameButCaches.unchanged (s : Sheet) : SameButCaches s s := fun _ => rfl

theorem SameButCaches.chain {s s1 s2 : Sheet} (h1 : SameButCaches s s1)
    (h2 : SameButCaches s1 s2) : SameButCaches s s2 := fun q => (h2 q).trans (h1 q)

theorem SameButCaches.modify (s : Sheet) (p : Position) (f : Cell → Cell)
    (hf : ∀ c, (f c).eraseCache = c.eraseCache) : SameButCaches s (s.modify p f) := by
  intro q
  rw [cellAt_modify]
  split
  · rename_i hq
    subst hq
    cases s.cellAt q with
    | none => rfl
    | some c => simp [hf]
  · rfl

theorem runExec_sameButCaches (lookup : Sheet → Position → Res (Value × Sheet))
    (hl : ∀ s p v s', lookup s p = .ok (v, s') → SameButCaches s s') :
    ∀ (exec : Exec) (s : Sheet) (v : FormulaValue) (s' : Sheet),
      runExec lookup exec s = .ok (v, s') → SameButCaches s s' := by
  intro exec
  induction exec with
  | finish v0 =>
    intro s v s' h
    simp only [runExec, Res.ok.injEq, Prod.mk.injEq] at h
    rw [← h.2]
    exact SameButCaches.unchanged s
  | read pos next ih =>
    intro s v s' h
    rw [runExec] at h
    cases hlook : lookup s pos with
    | threw e => rw [hlook] at h; cases h
    | undefined => rw [hlook] at h; cases h
    | outOfFuel => rw [hlook] at h; cases h
    | ok res =>
      obtain ⟨v1, s1⟩ := res
      rw [hlook] at h
      exact (hl s pos v1 s1 hlook).chain (ih v1 s1 v s' h)

theorem GetValue_sameButCaches (E : Env) :
    ∀ (n : Nat) (s : Sheet) (p : Position) (v : Value) (s' : Sheet),
      GetValue E n s p = .ok (v, s') → SameButCaches s s' := by
  intro n
  induction n with
  | zero => intro s p v s' h; simp [GetValue] at h
  | succ n ih =>
    intro s p v s' h
    rw [GetValue] at h
    cases hcell : s.cellAt p with
    | none => rw [hcell] at h; cases h
    | some this =>
      rw [hcell] at h
      simp only at h
      cases himpl : this.impl_ with
      | none => rw [himpl] at h; cases h
      | some impl =>
        rw [himpl] at h
        cases impl with
        | EmptyImpl =>
          simp only [Res.ok.injEq, Prod.mk.injEq] at h
          rw [← h.2]; exact SameButCaches.unchanged s
        | TextImpl t =>
          simp only [Res.ok.injEq, Prod.mk.injEq] at h
          rw [← h.2]; exact SameButCaches.unchanged s
        | FormulaImpl formula =>
          simp only at h
          have hlookup : ∀ s p v s', lookupValue E (GetValue E n) s p = .ok (v, s') →
              SameButCaches s s' := by
            intro s p v s' hl
            unfold lookupValue at hl
            split at hl
            · split at hl
              · simp only [Res.ok.injEq, Prod.mk.injEq] at hl
                rw [← hl.2]; exact SameButCaches.unchanged s
              · exact ih s p v s' hl
            · simp only [Res.ok.injEq, Prod.mk.injEq] at hl
              rw [← hl.2]; exact SameButCaches.unchanged s
          unfold Formula.Evaluate at h
          cases hcache : formula.cache_ with
          | some fv =>
            rw [hcache] at h
            simp only [Res.ok.injEq, Prod.mk.injEq] at h
            rw [← h.2]; exact SameButCaches.unchanged s
          | none =>
            rw [hcache] at h
            simp only at h
            cases hrun : runExec (lookupValue E (GetValue E n)) formula.ast_.Execute s with
            | threw e => rw [hrun] at h; cases h
            | undefined => rw [hrun] at h; cases h
            | outOfFuel => rw [hrun] at h; cases h
            | ok res =>
              obtain ⟨fv, s1⟩ := res
              rw [hrun] at h
              simp only [Res.ok.injEq, Prod.mk.injEq] at h
              rw [← h.2]
              refine (runExec_sameButCaches _ hlookup _ s fv s1 hrun).chain
                (SameButCaches.modify s1 p _ ?_)
              intro c
              cases hc : c.impl_ with
              | none => simp [hc]
              | some i =>
                cases i with
                | EmptyImpl => simp [hc]
                | TextImpl t => simp [hc]
                | FormulaImpl f => simp [hc, Cell.eraseCache, Impl.eraseCache]

theorem eraseCache_refs (i : Impl) : i.eraseCache.GetReferencedCells = i.GetReferencedCells := by
  cases i <;> rfl

theorem SameButCaches.cell {s s1 : Sheet} (h : SameButCaches s s1) {q : Position} {c1 : Cell}
    (hc : s1.cellAt q = some c1) : ∃ c, s.cellAt q = some c ∧ c.eraseCache = c1.eraseCache := by
  have := h q
  rw [hc] at this
  cases hs : s.cellAt q with
  | none => rw [hs] at this; cases this
  | some c =>
    rw [hs] at this
    simp only [Option.map_some', Option.some.injEq] at this
    exact ⟨c, rfl, this.symm⟩

theorem SameButCaches.refs {s s1 : Sheet} (h : SameButCaches s s1) (a b : Position)
    (hr : Refs s1 a b) : Refs s a b := by
  obtain ⟨c1, impl1, hc1, himpl1, hmem⟩ := hr
  obtain ⟨c, hc, heq⟩ := h.cell hc1
  have himpl : c.impl_.map Impl.eraseCache = c1.impl_.map Impl.eraseCache := by
    have := congrArg Cell.impl_ heq
    exact this
  rw [himpl1] at himpl
  cases hci : c.impl_ with
  | none => rw [hci] at himpl; cases himpl
  | some impl =>
    rw [hci] at himpl
    simp only [Option.map_some', Option.some.injEq] at himpl
    refine ⟨c, impl, hc, hci, ?_⟩
    rw [← eraseCache_refs impl, himpl, eraseCache_refs]
    exact hmem

theorem SameButCaches.noDependents_of {s s1 : Sheet} (h : SameButCaches s s1)
    (hnd : NoDependents s) : NoDependents s1 := by
  intro q c1 hc1
  obtain ⟨c, hc, heq⟩ := h.cell hc1
  have := congrArg Cell.dependent_cells_ heq
  simp only [Cell.eraseCache] at this
  rw [← this]
  exact hnd q c hc

theorem step_invariant (E : Env) (fuel : Nat) (s : Sheet) (call : Call) (s' : Sheet)
    (hnd : NoDependents s) (hac : Acyclic s) (h : (step E fuel s call).sheet = some s') :
    NoDependents s' ∧ Acyclic s' := by
  cases call with
  | SetCell pos text =>
    simp only [step] at h
    rcases SetCell_spec E fuel s pos text hnd with hu | hu | hspec
    · rw [hu] at h; cases h
    · rw [hu] at h; cases h
    · exact ⟨hspec.leaves_noDependents hnd s' h, hspec.leaves_acyclic hac s' h⟩
  | ClearCell pos =>
    simp only [step, ClearCell] at h
    split at h
    · rename_i hvalid
      obtain ⟨hr, hc⟩ := valid_nonneg E pos hvalid
      rw [GetCell_valid E s pos hvalid] at h
      cases hfound : s.cellAt pos with
      | none =>
        rw [hfound] at h
        simp only [Outcome.sheet, Option.some.injEq] at h
        subst h
        exact ⟨hnd, hac⟩
      | some c =>
        rw [hfound] at h
        simp only [Outcome.sheet, Option.some.injEq] at h
        subst h
        constructor
        · intro q c' hq
          rw [cellAt_put_none s pos q hr hc] at hq
          split at hq
          · cases hq
          · exact hnd q c' hq
        · refine acyclic_mono ?_ hac
          rintro a b ⟨cell, impl, hcell, himpl, hmem⟩
          rw [cellAt_put_none s pos a hr hc] at hcell
          split at hcell
          · cases hcell
          · exact ⟨cell, impl, hcell, himpl, hmem⟩
    · simp only [Outcome.sheet, Option.some.injEq] at h
      subst h
      exact ⟨hnd, hac⟩
  | GetValue pos =>
    simp only [step] at h
    cases hget : s.GetCell E pos with
    | error e =>
      rw [hget] at h
      simp only [Outcome.sheet, Option.some.injEq] at h
      subst h
      exact ⟨hnd, hac⟩
    | ok found =>
      rw [hget] at h
      cases found with
      | none => cases h
      | some c =>
        simp only at h
        cases hval : GetValue E fuel s pos with
        | threw e =>
          rw [hval] at h
          simp only [Outcome.sheet, Option.some.injEq] at h
          subst h
          exact ⟨hnd, hac⟩
        | undefined => rw [hval] at h; cases h
        | outOfFuel => rw [hval] at h; cases h
        | ok res =>
          obtain ⟨v, s1⟩ := res
          rw [hval] at h
          simp only [Outcome.sheet, Option.some.injEq] at h
          subst h
          have hsame := GetValue_sameButCaches E fuel s pos v s1 hval
          exact ⟨hsame.noDependents_of hnd, acyclic_mono hsame.refs hac⟩

theorem afterCalls_invariant (E : Env) :
    ∀ (calls : List (Nat × Call)) (s s' : Sheet), NoDependents s → Acyclic s →
      afterCalls E calls s = some s' → NoDependents s' ∧ Acyclic s' := by
  intro calls
  induction calls with
  | nil =>
    intro s s' hnd hac h
    simp only [afterCalls, Option.some.injEq] at h
    subst h
    exact ⟨hnd, hac⟩
  | cons head rest ih =>
    intro s s' hnd hac h
    obtain ⟨fuel, call⟩ := head
    rw [afterCalls] at h
    cases hstep : (step E fuel s call).sheet with
    | none => rw [hstep] at h; cases h
    | some s1 =>
      rw [hstep] at h
      obtain ⟨hnd1, hac1⟩ := step_invariant E fuel s call s1 hnd hac hstep
      exact ih s1 s' hnd1 hac1 h

theorem empty_noDependents : NoDependents Sheet.empty := by
  intro p c h
  simp [Sheet.cellAt, Sheet.empty, slot] at h

theorem empty_acyclic : Acyclic Sheet.empty := by
  intro p h
  obtain ⟨q, hq⟩ : ∃ q, Refs Sheet.empty p q := by
    cases h with
    | single h => exact ⟨_, h⟩
    | tail h1 h2 =>
      rcases Relation.TransGen.head'_iff.mp (Relation.TransGen.tail h1 h2) with ⟨c, hc, _⟩
      exact ⟨c, hc⟩
  obtain ⟨cell, _, hcell, _, _⟩ := hq
  simp [Sheet.cellAt, Sheet.empty, slot] at hcell

theorem Reachable.invariant {E : Env} {s : Sheet} (h : Reachable E s) :
    NoDependents s ∧ Acyclic s := by
  obtain ⟨calls, h⟩ := h
  exact afterCalls_invariant E calls Sheet.empty s empty_noDependents empty_acyclic h

theorem Sheet.all_cellAt (s : Sheet) (f : Cell → Bool) (h : s.all f = true) (p : Position)
    (c : Cell) (hc : s.cellAt p = some c) : f c = true := by
  unfold Sheet.all at h
  rw [List.all_eq_true] at h
  unfold Sheet.cellAt at hc
  split at hc
  · unfold slot at hc
    split at hc
    · cases hc
    · rename_i cells hcells
      split at hc
      · cases hc
      · rename_i o ho
        subst hc
        have h1 := h cells (List.getElem?_mem hcells)
        rw [List.all_eq_true] at h1
        exact h1 (some c) (List.getElem?_mem ho)
  · cases hc

theorem reachable_getD (E : Env) (calls : List (Nat × Call))
    (h : (afterCalls E calls Sheet.empty).isSome = true) :
    Reachable E ((afterCalls E calls Sheet.empty).getD Sheet.empty) := by
  refine ⟨calls, ?_⟩
  cases hs : afterCalls E calls Sheet.empty with
  | none => rw [hs] at h; cases h
  | some s => rfl

theorem HasCyclicDependence_contentless (E : Env) (fuel : Nat) (s : Sheet)
    (self pos : Position) (rest : List Position) (c : Cell) (hvalid : pos.IsValid E = true)
    (hc : s.cellAt pos = some c) (himpl : c.impl_ = none) (hne : pos ≠ self) :
    HasCyclicDependence E (fuel + 1) s self (pos :: rest) = .undefined := by
  simp [HasCyclicDependence, HasCyclicDependenceRecursively, cyclicLoop,
    GetCell_valid E s pos hvalid, hc, hne, Cell.GetReferencedCells, himpl]

theorem HasCyclicDependence_invalid (E : Env) (fuel : Nat) (s : Sheet)
    (self pos : Position) (rest : List Position) (hvalid : pos.IsValid E = false) :
    HasCyclicDependence E (fuel + 1) s self (pos :: rest) = .threw .InvalidPosition := by
  simp [HasCyclicDependence, HasCyclicDependenceRecursively, cyclicLoop,
    GetCell_invalid E s pos hvalid]

theorem acyclic_of_no_references (s : Sheet)
    (h : s.all (fun c =>
      match c.impl_ with
      | none => true
      | some impl => impl.GetReferencedCells.isEmpty) = true) : Acyclic s := by
  have hno : ∀ p q, ¬ Refs s p q := by
    rintro p q ⟨cell, impl, hcell, himpl, hmem⟩
    have := Sheet.all_cellAt s _ h p cell hcell
    simp only [himpl, List.isEmpty_iff] at this
    rw [this] at hmem
    cases hmem
  intro p hp
  rcases Relation.TransGen.head'_iff.mp hp with ⟨c, hc, _⟩
  exact hno p c hc

theorem no_path_without_references (s : Sheet)
    (h : s.all (fun c =>
      match c.impl_ with
      | none => true
      | some impl => impl.GetReferencedCells.isEmpty) = true) (a b : Position) (hab : a ≠ b) :
    ¬ Relation.ReflTransGen (Refs s) a b := by
  intro hp
  rcases Relation.ReflTransGen.cases_head hp with h1 | ⟨c, ⟨cell, impl, hcell, himpl, hmem⟩, _⟩
  · exact hab h1
  · have := Sheet.all_cellAt s _ h a cell hcell
    simp only [himpl, List.isEmpty_iff] at this
    rw [this] at hmem
    cases hmem

/-- C2 (counterexample): the cycle check is not exact on every acyclic sheet
and every candidate list.  On the sheet left by `SetCell(A1, "=A1")`, which
throws, and `SetCell(B1, "1")`, the graph is acyclic and B1 cannot be reached
from A1, yet the check of B1 against the candidate A1 never returns false: it
dereferences the null content of A1.  On the sheet with the single cell A1, the
check of A1 against a candidate position that is not valid never returns false
either: `GetCell` throws `InvalidPosition`. -/
theorem HasCyclicDependence_not_exact :
    (Acyclic contentlessSheet ∧ (contentlessSheet.cellAt B1).isSome = true ∧
      (¬ ∃ c ∈ [A1], Relation.ReflTransGen (Refs contentlessSheet) c B1) ∧
      ∀ fuel, HasCyclicDependence exampleEnv fuel contentlessSheet B1 [A1] ≠ .ok false) ∧
    (Acyclic sheetWithA1 ∧ (sheetWithA1.cellAt A1).isSome = true ∧
      (¬ ∃ c ∈ [({ row := -1, col := 0 } : Position)],
        Relation.ReflTransGen (Refs sheetWithA1) c A1) ∧
      ∀ fuel, HasCyclicDependence exampleEnv fuel sheetWithA1 A1 [{ row := -1, col := 0 }] ≠
        .ok false) := by
  refine ⟨⟨acyclic_of_no_references _ (by decide), by decide, ?_, ?_⟩,
    ⟨acyclic_of_no_references _ (by decide), by decide, ?_, ?_⟩⟩
  · rintro ⟨c, hc, hreach⟩
    rw [List.mem_singleton] at hc
    subst hc
    exact no_path_without_references _ (by decide) A1 B1 (by decide) hreach
  · intro fuel
    cases fuel with
    | zero => simp [HasCyclicDependence, HasCyclicDependenceRecursively]
    | succ n =>
      rw [HasCyclicDependence_contentless exampleEnv n contentlessSheet B1 A1 []
        { addr := 0, impl_ := none, dependent_cells_ := [], referencing_cells_ := [] }
        (by decide) (by rfl) rfl (by decide)]
      simp
  · rintro ⟨c, hc, hreach⟩
    rw [List.mem_singleton] at hc
    subst hc
    exact no_path_without_references _ (by decide) _ A1 (by decide) hreach
  · intro fuel
    cases fuel with
    | zero => simp [HasCyclicDependence, HasCyclicDependenceRecursively]
    | succ n =>
      rw [HasCyclicDependence_invalid exampleEnv n sheetWithA1 A1 _ [] (by decide)]
      simp

/-- C5: after any sequence of calls of `SetCell`, `ClearCell` and `GetValue`
from the empty sheet, each returning or throwing, the reference graph of the
sheet has no cycle. -/
theorem acyclicity_invariant (E : Env) (calls : List (Nat × Call)) (s : Sheet)
    (h : afterCalls E calls Sheet.empty = some s) : Acyclic s :=
  (afterCalls_invariant E calls Sheet.empty s empty_noDependents empty_acyclic h).2

theorem acyclicity_invariant_witness :
    ∃ s, afterCalls exampleEnv rewriteExample Sheet.empty = some s ∧
      (callOn exampleEnv 8 (afterCalls exampleEnv staleExample Sheet.empty)
        (.SetCell A1 "=B1")).thrown = some .CircularDependency ∧ Acyclic s := by
  have hs : (afterCalls exampleEnv rewriteExample Sheet.empty).isSome = true := by decide
  obtain ⟨s, hs⟩ := Option.isSome_iff_exists.mp hs
  exact ⟨s, hs, by decide, acyclicity_invariant exampleEnv rewriteExample s hs⟩

theorem HasCyclicDependence_exact_witness :
    Acyclic chainSheet ∧
    (∃ N, ∀ fuel, N ≤ fuel →
      ∃ b, HasCyclicDependence exampleEnv fuel chainSheet A1 [C1] = .ok b ∧
        (b = true ↔ ∃ c ∈ [C1], Relation.ReflTransGen (Refs chainSheet) c A1)) ∧
    HasCyclicDependence exampleEnv 8 chainSheet A1 [C1] = .ok true ∧
    (callOn exampleEnv 8 (afterCalls exampleEnv chainExample Sheet.empty)
      (.SetCell A1 "=C1")).thrown = some .CircularDependency ∧
    (callOn exampleEnv 8 (afterCalls exampleEnv diamondExample Sheet.empty)
      (.SetCell D1 "=B1+C1")).returned = true := by
  have hac : Acyclic chainSheet :=
    (Reachable.invariant (reachable_getD exampleEnv chainExample (by decide))).2
  have hcontent : chainSheet.all (fun c => c.impl_.isSome) = true := by decide
  have hrefs : chainSheet.all (fun c =>
      match c.impl_ with
      | none => true
      | some impl => impl.GetReferencedCells.all (fun q => q.IsValid exampleEnv)) = true := by
    decide
  refine ⟨hac, ?_, by rfl, by decide, by decide⟩
  apply HasCyclicDependence_exact exampleEnv chainSheet A1 [C1] (by decide) hac
  · intro q c _ hc
    exact Sheet.all_cellAt chainSheet _ hcontent q c hc
  · intro q hq
    rw [List.mem_singleton] at hq
    subst hq
    decide
  · rintro p q _ ⟨cell, impl, hcell, himpl, hmem⟩
    have := Sheet.all_cellAt chainSheet _ hrefs p cell hcell
    simp only [himpl, List.all_eq_true] at this
    exact this q hmem

/-! ## Failed and successful writes -/

theorem thrown_eq_some {out : Outcome} {e : Exn} (h : out.thrown = some e) :
    ∃ s', out = .threw e s' := by
  cases out with
  | threw e' s' =>
    simp only [Outcome.thrown, Option.some.injEq] at h
    subst h
    exact ⟨s', rfl⟩
  | done s' => cases h
  | undefined => cases h
  | outOfFuel => cases h

theorem returned_eq_true {out : Outcome} (h : out.returned = true) : ∃ s', out = .done s' := by
  cases out with
  | done s' => exact ⟨s', rfl⟩
  | threw e' s' => cases h
  | undefined => cases h
  | outOfFuel => cases h

theorem SetCell_threw (E : Env) (fuel : Nat) (s s' : Sheet) (p : Position) (text : String)
    (this : Cell) (e : Exn) (hnd : NoDependents s) (hthis : s.cellAt p = some this)
    (he : e ≠ .InvalidPosition ∨ p.IsValid E = true)
    (hfail : SetCell E fuel s p text = .threw e s') :
    Updated s s' p { this with referencing_cells_ := [] } := by
  rcases SetCell_spec E fuel s p text hnd with hu | hu | hspec
  · rw [hu] at hfail; cases hfail
  · rw [hu] at hfail; cases hfail
  · rw [hfail] at hspec
    rcases hspec with ⟨hinv, hout⟩ | ⟨_, s0, this0, hbase, _, hset⟩
    · injection hout with h1 h2
      rcases he with he | he
      · exact absurd h1 he
      · rw [hinv] at he; cases he
    · rcases hbase with ⟨hthis0, h0⟩ | ⟨hnone, _, _⟩
      · subst h0
        rw [hthis] at hthis0
        injection hthis0 with hthis0
        subst hthis0
        obtain ⟨s1, hup, h⟩ := hset
        rcases h with ⟨e', he'⟩ | ⟨_, s2, he', _⟩ | ⟨_, _, s2, he', _⟩ |
          ⟨_, formula, s2, _, he', _⟩
        · injection he' with _ h2
          subst h2
          exact hup
        · cases he'
        · cases he'
        · cases he'
      · rw [hthis] at hnone; cases hnone

/-- C4: on a sheet reached from the empty sheet, let `SetCell(p, text)` on an
existing cell throw `CircularDependency` or `FormulaException`.  Then the cell at
`p` has the content it had, cache included, so the same `GetText` and the same
`GetReferencedCells`; and every other slot holds what it held: no cell was
created and no other cell changed. -/
theorem failed_Set_keeps_content (E : Env) (fuel : Nat) (s s' : Sheet) (p : Position)
    (text : String) (this : Cell) (e : Exn) (hreach : Reachable E s)
    (hthis : s.cellAt p = some this)
    (he : e = .CircularDependency ∨ e = .FormulaException)
    (hfail : SetCell E fuel s p text = .threw e s') :
    (∃ this', s'.cellAt p = some this' ∧ this'.impl_ = this.impl_ ∧
      this'.GetText E = this.GetText E ∧
      this'.GetReferencedCells = this.GetReferencedCells) ∧
    (∀ q, q ≠ p → s'.cellAt q = s.cellAt q) := by
  have hne : e ≠ .InvalidPosition := by
    rcases he with he | he <;> subst he <;> decide
  have hup := SetCell_threw E fuel s s' p text this e hreach.invariant.1 hthis (Or.inl hne) hfail
  exact ⟨⟨_, hup.self, rfl, rfl, rfl⟩, fun q hq => hup.other hq⟩

theorem failed_Set_keeps_content_witness :
    (writeSheet.cellAt B1).map (Cell.GetText exampleEnv) = some (some "=A1*2") ∧
    cacheAt (some writeSheet) B1 = some (some (.Number 2)) ∧
    ∃ s', SetCell exampleEnv 8 writeSheet B1 "=B1" = .threw .CircularDependency s' ∧
      (∃ this', s'.cellAt B1 = some this' ∧
        this'.GetText exampleEnv = some "=A1*2" ∧
        this'.GetReferencedCells = some [A1]) ∧
      cacheAt (some s') B1 = some (some (.Number 2)) ∧
      (∀ q, q ≠ B1 → s'.cellAt q = writeSheet.cellAt q) := by
  refine ⟨by decide, by decide, ?_⟩
  have hthrown : (SetCell exampleEnv 8 writeSheet B1 "=B1").thrown =
      some .CircularDependency := by decide
  obtain ⟨s', hs'⟩ := thrown_eq_some hthrown
  have hcell : (writeSheet.cellAt B1).isSome = true := by decide
  obtain ⟨this, hthis⟩ := Option.isSome_iff_exists.mp hcell
  have htext : this.GetText exampleEnv = some "=A1*2" := by
    have : (writeSheet.cellAt B1).map (Cell.GetText exampleEnv) = some (some "=A1*2") := by
      decide
    rw [hthis] at this
    simpa using this
  have hrefs : this.GetReferencedCells = some [A1] := by
    have : (writeSheet.cellAt B1).map Cell.GetReferencedCells = some (some [A1]) := by decide
    rw [hthis] at this
    simpa using this
  have hcache : cacheAt (some writeSheet) B1 = some (some (.Number 2)) := by decide
  obtain ⟨⟨this', h1, h2, h3, h4⟩, hother⟩ :=
    failed_Set_keeps_content exampleEnv 8 writeSheet s' B1 "=B1" this .CircularDependency
      (reachable_getD exampleEnv writeExample (by decide)) hthis (Or.inl rfl) hs'
  refine ⟨s', hs', ⟨this', h1, h3.trans htext, h4.trans hrefs⟩, ?_, hother⟩
  simp only [cacheAt, hthis, h1, Option.some_bind] at hcache ⊢
  rw [h2]
  exact hcache

theorem SetCell_done_formula (E : Env) (fuel : Nat) (s s' : Sheet) (p : Position)
    (text : String) (formula : Formula) (hnd : NoDependents s) (hform : IsFormulaText E text)
    (hparse : ParseFormula E (String.mk (text.data.drop 1)) = some formula)
    (hdone : SetCell E fuel s p text = .done s') :
    p.IsValid E = true ∧
    ∃ s1, (∀ q, q ≠ p → s1.cellAt q = s.cellAt q) ∧ (s1.cellAt p).isSome = true ∧
      (∃ n, HasCyclicDependence E n s1 p formula.GetReferencedCells = .ok false) ∧
      Extends s1 s' p formula.GetReferencedCells ∧
      (∀ q ∈ formula.GetReferencedCells, (s'.cellAt q).isSome = true) ∧
      ∃ this, this.impl_ = some (.FormulaImpl formula) ∧ this.dependent_cells_ = [] ∧
        s'.cellAt p = some this := by
  rcases SetCell_spec E fuel s p text hnd with hu | hu | hspec
  · rw [hu] at hdone; cases hdone
  · rw [hu] at hdone; cases hdone
  · rw [hdone] at hspec
    rcases hspec with ⟨_, hout⟩ | ⟨hvalid, s0, this0, hbase, hdep, hset⟩
    · cases hout
    · refine ⟨hvalid, ?_⟩
      have h0 : ∀ q, q ≠ p → s0.cellAt q = s.cellAt q := by
        rcases hbase with ⟨_, h0⟩ | ⟨_, _, h0⟩
        · subst h0; exact fun _ _ => rfl
        · exact fun q hq => h0.other hq
      obtain ⟨s1, hup, h⟩ := hset
      rcases h with ⟨e', he'⟩ | ⟨hempty, _⟩ | ⟨_, hnot, _⟩ |
        ⟨_, formula', s2, hparse', he', hcyc, hext, hpres, R, hR⟩
      · cases he'
      · have := hform.1
        rw [hempty] at this
        cases this
      · exact absurd hform hnot
      · injection he' with he'
        subst he'
        rw [hparse] at hparse'
        injection hparse' with hparse'
        subst hparse'
        exact ⟨s1, fun q hq => (hup.other hq).trans (h0 q hq), by rw [hup.self]; rfl, hcyc,
          hext, hpres, { this0 with impl_ := some (.FormulaImpl formula), referencing_cells_ := R },
          rfl, hdep, hR⟩

theorem GetValue_placeholder (E : Env) (n : Nat) (s : Sheet) (q : Position) (c : Cell)
    (hc : s.cellAt q = some c) (hp : c.impl_ = some .EmptyImpl) :
    GetValue E (n + 1) s q = .ok (.Text "", s) := by
  simp [GetValue, hc, hp]

/-- C10: on a sheet reached from the empty sheet, let `SetCell(p, text)` return
for a text that is a formula.  Then at every position the formula references,
`GetCell` returns a cell afterwards; if it returned no cell before, the cell has
the text `""` and the value `Text("")`; if it returned a cell before, it returns
that same cell. -/
theorem SetCell_creates_placeholders (E : Env) (fuel : Nat) (s s' : Sheet) (p : Position)
    (text : String) (formula : Formula) (hreach : Reachable E s) (hform : IsFormulaText E text)
    (hparse : ParseFormula E (String.mk (text.data.drop 1)) = some formula)
    (hdone : SetCell E fuel s p text = .done s') (q : Position)
    (hq : q ∈ formula.GetReferencedCells) :
    (∃ c, s'.GetCell E q = .ok (some c)) ∧
    (s.GetCell E q = .ok none → ∃ c, s'.GetCell E q = .ok (some c) ∧
      c.GetText E = some "" ∧ ∀ n, GetValue E (n + 1) s' q = .ok (.Text "", s')) ∧
    (∀ c, s.GetCell E q = .ok (some c) → s'.GetCell E q = .ok (some c)) := by
  obtain ⟨_, s1, hsame, hself, ⟨n, hcyc⟩, hext, hpres, _⟩ :=
    SetCell_done_formula E fuel s s' p text formula hreach.invariant.1 hform hparse hdone
  have hvalid := HasCyclicDependence_false_valid E n s1 p _ hcyc q hq
  have hne : q ≠ p := by
    intro hqp
    subst hqp
    have := (HasCyclicDependence_sound E s1 q hself n _ false hcyc).mpr
      ⟨q, hq, Relation.ReflTransGen.refl⟩
    cases this
  rw [GetCell_valid E s' q hvalid, GetCell_valid E s q hvalid]
  have hpresent := hpres q hq
  refine ⟨?_, ?_, ?_⟩
  · obtain ⟨c, hc⟩ := Option.isSome_iff_exists.mp hpresent
    exact ⟨c, by rw [hc]⟩
  · intro hnone
    injection hnone with hnone
    rcases hext q hne with h | ⟨_, _, c, hc, hp⟩
    · rw [h, hsame q hne, hnone] at hpresent
      cases hpresent
    · refine ⟨c, by rw [hc], ?_, fun n => GetValue_placeholder E n s' q c hc hp.1⟩
      simp [Cell.GetText, hp.1, Impl.GetText]
  · intro c hc
    injection hc with hc
    rcases hext q hne with h | ⟨hnone, _⟩
    · rw [h, hsame q hne, hc]
    · rw [hsame q hne, hc] at hnone
      cases hnone

theorem SetCell_creates_placeholders_witness :
    (exampleEnv.ParseFormulaAST "B1+C1").isSome = true ∧
    ∃ s' formula, ParseFormula exampleEnv "B1+C1" = some formula ∧
      formula.GetReferencedCells = [B1, C1] ∧
      SetCell exampleEnv 8 sheetAfterB1 D1 "=B1+C1" = .done s' ∧
      (∀ q ∈ formula.GetReferencedCells,
        (∃ c, s'.GetCell exampleEnv q = .ok (some c)) ∧
        (sheetAfterB1.GetCell exampleEnv q = .ok none →
          ∃ c, s'.GetCell exampleEnv q = .ok (some c) ∧ c.GetText exampleEnv = some "" ∧
            ∀ n, GetValue exampleEnv (n + 1) s' q = .ok (.Text "", s')) ∧
        (∀ c, sheetAfterB1.GetCell exampleEnv q = .ok (some c) →
          s'.GetCell exampleEnv q = .ok (some c))) ∧
      textAt exampleEnv (some sheetAfterB1) B1 = some "7" ∧
      textAt exampleEnv (some s') B1 = some "7" ∧
      presentAt (some sheetAfterB1) C1 = some (false, false) ∧
      textAt exampleEnv (some s') C1 = some "" := by
  refine ⟨by decide, ?_⟩
  have hret : (SetCell exampleEnv 8 sheetAfterB1 D1 "=B1+C1").returned = true := by decide
  obtain ⟨s', hs'⟩ := returned_eq_true hret
  have hparse : (ParseFormula exampleEnv "B1+C1").isSome = true := by decide
  obtain ⟨formula, hformula⟩ := Option.isSome_iff_exists.mp hparse
  have hcells : formula.GetReferencedCells = [B1, C1] := by
    have : (ParseFormula exampleEnv "B1+C1").map Formula.GetReferencedCells =
        some [B1, C1] := by decide
    rw [hformula] at this
    simpa using this
  have h1 : textAt exampleEnv (SetCell exampleEnv 8 sheetAfterB1 D1 "=B1+C1").sheet B1 =
      some "7" := by decide
  have h2 : textAt exampleEnv (SetCell exampleEnv 8 sheetAfterB1 D1 "=B1+C1").sheet C1 =
      some "" := by decide
  rw [hs'] at h1 h2
  exact ⟨s', formula, hformula, hcells, hs',
    fun q hq => SetCell_creates_placeholders exampleEnv 8 sheetAfterB1 s' D1 "=B1+C1" formula
      (reachable_getD exampleEnv [(8, .SetCell B1 "7")] (by decide))
      (by unfold IsFormulaText; decide) hformula hs'
      q hq,
    by decide, h1, by decide, h2⟩

theorem ClearCellReferences_live (fuel : Nat) (s : Sheet) (self : Position) (this : Cell)
    (hthis : s.cellAt self = some this) (hdep : this.dependent_cells_ = [])
    (hlive : ∀ a ∈ this.referencing_cells_, (s.findAddr a).isSome = true) :
    ∃ s1, ClearCellReferences fuel s self = .ok s1 ∧
      Updated s s1 self { this with referencing_cells_ := [] } := by
  unfold ClearCellReferences
  simp only [hthis, hdep, InvalidateCache_nil]
  have hall : (this.referencing_cells_.all fun a => (s.findAddr a).isSome) = true := by
    rw [List.all_eq_true]
    exact hlive
  rw [if_pos hall]
  exact ⟨_, rfl, updated_of_put s self this _ hthis⟩

theorem Cell_Set_text (E : Env) (setCell : Sheet → Position → String → Outcome) (fuel : Nat)
    (s : Sheet) (self : Position) (this : Cell) (text : String)
    (hthis : s.cellAt self = some this) (hdep : this.dependent_cells_ = [])
    (hlive : ∀ a ∈ this.referencing_cells_, (s.findAddr a).isSome = true)
    (htext : ¬ IsFormulaText E text) :
    ∃ s' c, Cell.Set E setCell fuel s self text = .done s' ∧ s'.cellAt self = some c ∧
      c.impl_ = some (if text.data = [] then .EmptyImpl else .TextImpl text) := by
  obtain ⟨s1, h1, hup⟩ := ClearCellReferences_live fuel s self this hthis hdep hlive
  unfold Cell.Set
  rw [h1]
  simp only
  unfold IsFormulaText at htext
  by_cases hempty : text.data = []
  · simp only [hempty, if_true]
    exact ⟨_, _, rfl, (updated_of_modify s1 self _ _ hup.self).self, rfl⟩
  · simp only [hempty, if_false, htext]
    exact ⟨_, _, rfl, (updated_of_modify s1 self _ _ hup.self).self, rfl⟩

/-- The round trip of a text that is not a formula, wherever the cell at `p`
stores no pointer to a destroyed cell: on a sheet reached from the empty sheet,
at a valid position, `SetCell(p, text)` returns, the cell at `p` has the text
`text`, and its value is the text without one leading escape marker. -/
theorem SetCell_text_roundtrip (E : Env) (fuel : Nat) (s : Sheet) (p : Position)
    (text : String) (hreach : Reachable E s) (hvalid : p.IsValid E = true)
    (htext : text.data = [] ∨ text.data.head? ≠ some E.FORMULA_SIGN ∨
      text.data = [E.FORMULA_SIGN])
    (hlive : ∀ this, s.cellAt p = some this →
      ∀ a ∈ this.referencing_cells_, (s.findAddr a).isSome = true) :
    ∃ s' c, SetCell E (fuel + 2) s p text = .done s' ∧ s'.GetCell E p = .ok (some c) ∧
      c.GetText E = some text ∧
      ∀ n, GetValue E (n + 1) s' p =
        .ok (.Text (if text.data.head? = some E.ESCAPE_SIGN then String.mk (text.data.drop 1)
          else text), s') := by
  have hnot : ¬ IsFormulaText E text := by
    rintro ⟨h1, h2⟩
    rcases htext with h | h | h
    · rw [h] at h1; cases h1
    · exact h h1
    · rw [h] at h2; simp at h2
  have hset : ∃ s' c, SetCell E (fuel + 2) s p text = .done s' ∧ s'.cellAt p = some c ∧
      c.impl_ = some (if text.data = [] then .EmptyImpl else .TextImpl text) := by
    cases hfound : s.cellAt p with
    | some this =>
      rw [SetCell_present E (fuel + 1) s p text this hvalid hfound]
      exact Cell_Set_text E _ _ s p this text hfound (hreach.invariant.1 p this hfound)
        (hlive this hfound) hnot
    | none =>
      obtain ⟨s0, h0, heq⟩ := SetCell_absent E fuel s p text hvalid hfound
      rw [heq]
      exact Cell_Set_text E _ _ s0 p _ text h0.self rfl (fun a ha => by cases ha) hnot
  obtain ⟨s', c, hdone, hc, himpl⟩ := hset
  refine ⟨s', c, hdone, by rw [GetCell_valid E s' p hvalid, hc], ?_, fun n => ?_⟩
  · by_cases hempty : text.data = []
    · have : text = "" := by
        cases text
        simp only at hempty
        subst hempty
        rfl
      simp [Cell.GetText, himpl, hempty, Impl.GetText, this]
    · simp [Cell.GetText, himpl, hempty, Impl.GetText]
  · by_cases hempty : text.data = []
    · have : text = "" := by
        cases text
        simp only at hempty
        subst hempty
        rfl
      subst this
      simp [GetValue, hc, himpl]
    · simp only [GetValue, hc, himpl, hempty, if_false, TextImpl.GetValue]
      cases hd : text.data with
      | nil => exact absurd hd hempty
      | cons x t =>
        simp only [List.headD, List.head?, List.drop, Option.some.injEq]
        split <;> rfl

/-! ## More examples run on the code -/

/-- C15 (the code at the failing input): after `SetCell(B1, "=A1")` the cell at
B1 stores the pointer to the cell at A1 in `referencing_cells_`, and the cell at
A1 stores nothing in `dependent_cells_`: A1 is among the references of B1, and
B1 is not among the dependents of A1. -/
theorem references_without_dependents :
    addrAt (afterCalls exampleEnv referenceExample Sheet.empty) A1 = some 1 ∧
    addrAt (afterCalls exampleEnv referenceExample Sheet.empty) B1 = some 0 ∧
    edgesAt (afterCalls exampleEnv referenceExample Sheet.empty) B1 = some ([], [1]) ∧
    edgesAt (afterCalls exampleEnv referenceExample Sheet.empty) A1 = some ([], []) := by
  decide

/-- C16 (the code at the failing input): after `SetCell(A1, "=A1")` has thrown
`CircularDependency` on the empty sheet, `GetCell(A1)` returns a cell whose
`impl_` is null: `GetText`, `GetReferencedCells` and `GetValue` on it dereference
the null pointer, and so does the cycle check of `SetCell(B1, "=A1")`, which
goes through it.  A formula that does not parse leaves the same cell. -/
theorem cell_without_content_after_failed_SetCell :
    (callOn exampleEnv 8 (some Sheet.empty) (.SetCell A1 "=A1")).thrown =
      some .CircularDependency ∧
    presentAt (afterCalls exampleEnv selfReferenceExample Sheet.empty) A1 = some (true, false) ∧
    textAt exampleEnv (afterCalls exampleEnv selfReferenceExample Sheet.empty) A1 = none ∧
    referencedAt (afterCalls exampleEnv selfReferenceExample Sheet.empty) A1 = none ∧
    (callOn exampleEnv 8 (afterCalls exampleEnv selfReferenceExample Sheet.empty)
      (.GetValue A1)).isUndefined = true ∧
    (callOn exampleEnv 8 (afterCalls exampleEnv selfReferenceExample Sheet.empty)
      (.SetCell B1 "=A1")).isUndefined = true ∧
    (callOn exampleEnv 8 (some Sheet.empty) (.SetCell A1 "=)(")).thrown =
      some .FormulaException ∧
    presentAt (callOn exampleEnv 8 (some Sheet.empty) (.SetCell A1 "=)(")).sheet A1 =
      some (true, false) := by
  decide

/-- C17 (the code at the failing input): with B1 `=A1`, the cell at B1 stores
the pointer to A1.  `SetCell(B1, "=B1")` throws `CircularDependency`, and
`SetCell(B1, "=)(")` throws `FormulaException`; after either the cell at B1
still has the text `=A1` and the referenced cell A1, but its
`referencing_cells_` is empty: the stored edges were cleared before the
check. -/
theorem failed_Set_clears_edges :
    edgesAt (afterCalls exampleEnv referenceExample Sheet.empty) B1 = some ([], [1]) ∧
    (callOn exampleEnv 8 (afterCalls exampleEnv referenceExample Sheet.empty)
      (.SetCell B1 "=B1")).thrown = some .CircularDependency ∧
    edgesAt (callOn exampleEnv 8 (afterCalls exampleEnv referenceExample Sheet.empty)
      (.SetCell B1 "=B1")).sheet B1 = some ([], []) ∧
    textAt exampleEnv (callOn exampleEnv 8 (afterCalls exampleEnv referenceExample Sheet.empty)
      (.SetCell B1 "=B1")).sheet B1 = some "=A1" ∧
    referencedAt (callOn exampleEnv 8 (afterCalls exampleEnv referenceExample Sheet.empty)
      (.SetCell B1 "=B1")).sheet B1 = some [A1] ∧
    (callOn exampleEnv 8 (afterCalls exampleEnv referenceExample Sheet.empty)
      (.SetCell B1 "=)(")).thrown = some .FormulaException ∧
    edgesAt (callOn exampleEnv 8 (afterCalls exampleEnv referenceExample Sheet.empty)
      (.SetCell B1 "=)(")).sheet B1 = some ([], []) ∧
    referencedAt (callOn exampleEnv 8 (afterCalls exampleEnv referenceExample Sheet.empty)
      (.SetCell B1 "=)(")).sheet B1 = some [A1] := by
  decide

/-! ## Evaluation of a formula -/

theorem formulaAt_eq_some {s : Sheet} {p : Position} {f : Formula} (h : formulaAt s p = some f) :
    ∃ c, s.cellAt p = some c ∧ c.impl_ = some (.FormulaImpl f) := by
  unfold formulaAt at h
  cases hc : s.cellAt p with
  | none => rw [hc] at h; cases h
  | some c =>
    rw [hc] at h
    simp only [Option.some_bind] at h
    cases hi : c.impl_ with
    | none => rw [hi] at h; cases h
    | some i =>
      rw [hi] at h
      cases i with
      | EmptyImpl => cases h
      | TextImpl t => cases h
      | FormulaImpl g =>
        simp only [Option.some.injEq] at h
        subst h
        exact ⟨c, rfl, hi⟩

theorem formulaAt_of_cell {s : Sheet} {p : Position} {c : Cell} {f : Formula}
    (hc : s.cellAt p = some c) (hi : c.impl_ = some (.FormulaImpl f)) :
    formulaAt s p = some f := by
  simp [formulaAt, hc, hi]

theorem result_eq_some {α : Type} {r : Res (α × Sheet)} {a : α} (h : r.result = some a) :
    ∃ s, r = .ok (a, s) := by
  cases r with
  | ok x =>
    obtain ⟨b, s⟩ := x
    simp only [Res.result, Option.some.injEq] at h
    subst h
    exact ⟨s, rfl⟩
  | threw e => cases h
  | undefined => cases h
  | outOfFuel => cases h

theorem lookupValue_sameButCaches (E : Env) (n : Nat) (s : Sheet) (p : Position) (v : Value)
    (s' : Sheet) (h : lookupValue E (GetValue E n) s p = .ok (v, s')) : SameButCaches s s' := by
  unfold lookupValue at h
  split at h
  · split at h
    · simp only [Res.ok.injEq, Prod.mk.injEq] at h
      rw [← h.2]; exact SameButCaches.unchanged s
    · exact GetValue_sameButCaches E n s p v s' h
  · simp only [Res.ok.injEq, Prod.mk.injEq] at h
    rw [← h.2]; exact SameButCaches.unchanged s

/-- C13: let the cell at `self` hold a formula without a cached value, and let
the execution of its expression on the sheet end with a thrown `FormulaError`
`e`.  Then `Evaluate` returns, and what it returns is `e`; and `GetValue` on the
cell returns the value `Error e`. -/
theorem errors_are_values (E : Env) (n : Nat) (s s1 : Sheet) (self : Position)
    (formula : Formula) (e : FormulaError) (hformula : formulaAt s self = some formula)
    (hcache : formula.cache_ = none)
    (hexec : runExec (lookupValue E (GetValue E n)) formula.ast_.Execute s =
      .ok (.Error e, s1)) :
    (∃ s2, Formula.Evaluate (lookupValue E (GetValue E n)) s self formula =
      .ok (.Error e, s2)) ∧
    (∃ s2, GetValue E (n + 1) s self = .ok (.Error e, s2)) := by
  obtain ⟨c, hc, hi⟩ := formulaAt_eq_some hformula
  have heval : ∃ s2, Formula.Evaluate (lookupValue E (GetValue E n)) s self formula =
      .ok (.Error e, s2) := by
    unfold Formula.Evaluate
    rw [hcache]
    simp only [hexec]
    exact ⟨_, rfl⟩
  refine ⟨heval, ?_⟩
  obtain ⟨s2, heval⟩ := heval
  refine ⟨s2, ?_⟩
  rw [GetValue]
  simp only [hc, hi, heval, FormulaValue.toValue]

theorem errors_are_values_witness :
    ∃ formula, formulaAt textOperandSheet B1 = some formula ∧ formula.cache_ = none ∧
      (runExec (lookupValue exampleEnv (GetValue exampleEnv 7)) formula.ast_.Execute
        textOperandSheet).result = some (.Error .Value) ∧
      (∃ s2, Formula.Evaluate (lookupValue exampleEnv (GetValue exampleEnv 7)) textOperandSheet
        B1 formula = .ok (.Error .Value, s2)) ∧
      (∃ s2, GetValue exampleEnv (7 + 1) textOperandSheet B1 = .ok (.Error .Value, s2)) := by
  have hsome : (formulaAt textOperandSheet B1).isSome = true := by decide
  obtain ⟨formula, hformula⟩ := Option.isSome_iff_exists.mp hsome
  have hcache : formula.cache_ = none := by
    have : (formulaAt textOperandSheet B1).map Formula.cache_ = some none := by decide
    rw [hformula] at this
    simpa using this
  have hres : ((formulaAt textOperandSheet B1).map (fun f =>
      (runExec (lookupValue exampleEnv (GetValue exampleEnv 7)) f.ast_.Execute
        textOperandSheet).result)) = some (some (.Error .Value)) := by decide
  rw [hformula] at hres
  simp only [Option.map_some', Option.some.injEq] at hres
  obtain ⟨s1, hexec⟩ := result_eq_some hres
  exact ⟨formula, hformula, hcache, hres,
    errors_are_values exampleEnv 7 textOperandSheet s1 B1 formula .Value hformula hcache hexec⟩

theorem SameButCaches.formula_kept {s s1 : Sheet} (h : SameButCaches s s1) {p : Position}
    {f : Formula} (hf : formulaAt s p = some f) :
    ∃ c1 f1, s1.cellAt p = some c1 ∧ c1.impl_ = some (.FormulaImpl f1) ∧ f1.ast_ = f.ast_ := by
  obtain ⟨c, hc, hi⟩ := formulaAt_eq_some hf
  have hq := h p
  rw [hc] at hq
  cases hc1 : s1.cellAt p with
  | none => rw [hc1] at hq; cases hq
  | some c1 =>
    rw [hc1] at hq
    simp only [Option.map_some', Option.some.injEq] at hq
    have himpl := congrArg Cell.impl_ hq
    simp only [Cell.eraseCache, hi, Option.map_some'] at himpl
    cases hi1 : c1.impl_ with
    | none => rw [hi1] at himpl; cases himpl
    | some i1 =>
      rw [hi1] at himpl
      simp only [Option.map_some', Option.some.injEq] at himpl
      cases i1 with
      | EmptyImpl => cases himpl
      | TextImpl t => cases himpl
      | FormulaImpl f1 =>
        simp only [Impl.eraseCache, Impl.FormulaImpl.injEq] at himpl
        exact ⟨c1, f1, rfl, hi1, (Formula.mk.injEq .. ▸ himpl).1⟩

/-- C18: let the cell at `self` hold a formula and let `Evaluate` on it return
`v`.  Then the formula of the cell is the same expression and `HasCache()` is
true on it; `Evaluate` on it returns `v` and leaves the sheet as it is, for
every sheet and every way cells are looked up, so the expression is not run;
after `ClearCache()`, `HasCache()` is false and `Evaluate` returns what running
the expression on the sheet it is given returns. -/
theorem Evaluate_memoized (E : Env) (n : Nat) (s s2 : Sheet) (self : Position)
    (formula : Formula) (v : FormulaValue) (hformula : formulaAt s self = some formula)
    (heval : Formula.Evaluate (lookupValue E (GetValue E n)) s self formula = .ok (v, s2)) :
    ∃ formula2, formulaAt s2 self = some formula2 ∧ formula2.ast_ = formula.ast_ ∧
      formula2.HasCache = true ∧
      (∀ lookup s' self', Formula.Evaluate lookup s' self' formula2 = .ok (v, s')) ∧
      formula2.ClearCache.HasCache = false ∧
      (∀ lookup s' self', (Formula.Evaluate lookup s' self' formula2.ClearCache).result =
        (runExec lookup formula2.ast_.Execute s').result) := by
  have hclear : ∀ (f : Formula) lookup s' self',
      (Formula.Evaluate lookup s' self' f.ClearCache).result =
        (runExec lookup f.ast_.Execute s').result := by
    intro f lookup s' self'
    simp only [Formula.Evaluate, Formula.ClearCache]
    cases runExec lookup f.ast_.Execute s' with
    | ok r => rfl
    | threw e => rfl
    | undefined => rfl
    | outOfFuel => rfl
  unfold Formula.Evaluate at heval
  cases hcache : formula.cache_ with
  | some v0 =>
    rw [hcache] at heval
    simp only [Res.ok.injEq, Prod.mk.injEq] at heval
    obtain ⟨hv, hs⟩ := heval
    subst hv hs
    refine ⟨formula, hformula, rfl, by simp [Formula.HasCache, hcache], ?_, rfl,
      hclear formula⟩
    intro lookup s' self'
    simp [Formula.Evaluate, hcache]
  | none =>
    rw [hcache] at heval
    simp only at heval
    cases hrun : runExec (lookupValue E (GetValue E n)) formula.ast_.Execute s with
    | threw e => rw [hrun] at heval; cases heval
    | undefined => rw [hrun] at heval; cases heval
    | outOfFuel => rw [hrun] at heval; cases heval
    | ok res =>
      obtain ⟨v1, s1⟩ := res
      rw [hrun] at heval
      simp only [Res.ok.injEq, Prod.mk.injEq] at heval
      obtain ⟨hv, hs⟩ := heval
      subst hv
      have hsame := runExec_sameButCaches _ (lookupValue_sameButCaches E n) _ s v1 s1 hrun
      obtain ⟨c1, f1, hc1, hi1, hast⟩ := hsame.formula_kept hformula
      refine ⟨{ f1 with cache_ := some v1 }, ?_, hast, rfl, ?_, rfl, hclear _⟩
      · rw [← hs]
        unfold Spreadsheet.formulaAt
        rw [cellAt_modify, if_pos rfl, hc1]
        simp only [Option.map_some', Option.some_bind, hi1]
      · intro lookup s' self'
        simp [Formula.Evaluate]

theorem Evaluate_memoized_witness :
    ∃ formula s2, formulaAt unreadSheet B1 = some formula ∧ formula.HasCache = false ∧
      Formula.Evaluate (lookupValue exampleEnv (GetValue exampleEnv 7)) unreadSheet B1 formula =
        .ok (.Number 2, s2) ∧
      ∃ formula2, formulaAt s2 B1 = some formula2 ∧ formula2.ast_ = formula.ast_ ∧
        formula2.HasCache = true ∧
        (∀ lookup s' self', Formula.Evaluate lookup s' self' formula2 = .ok (.Number 2, s')) ∧
        formula2.ClearCache.HasCache = false ∧
        (∀ lookup s' self', (Formula.Evaluate lookup s' self' formula2.ClearCache).result =
          (runExec lookup formula2.ast_.Execute s').result) := by
  have hsome : (formulaAt unreadSheet B1).isSome = true := by decide
  obtain ⟨formula, hformula⟩ := Option.isSome_iff_exists.mp hsome
  have hcache : formula.HasCache = false := by
    have : (formulaAt unreadSheet B1).map Formula.HasCache = some false := by decide
    rw [hformula] at this
    simpa using this
  have hres : ((formulaAt unreadSheet B1).map (fun f =>
      (Formula.Evaluate (lookupValue exampleEnv (GetValue exampleEnv 7)) unreadSheet B1
        f).result)) = some (some (.Number 2)) := by decide
  rw [hformula] at hres
  simp only [Option.map_some', Option.some.injEq] at hres
  obtain ⟨s2, heval⟩ := result_eq_some hres
  exact ⟨formula, s2, hformula, hcache, heval,
    Evaluate_memoized exampleEnv 7 unreadSheet s2 B1 formula (.Number 2) hformula heval⟩

/-! ## The expansions of the cycle search -/

theorem cyclicLoopTrace_erase (E : Env) (s : Sheet) (self : Position)
    (recurT : List Position → List Position → List Position →
      Res (Bool × List Position × List Position))
    (recur : List Position → List Position → Res (Bool × List Position))
    (hrec : ∀ l v t, dropTrace (recurT l v t) = recur l v) :
    ∀ l v t, dropTrace (cyclicLoopTrace E s self recurT l v t) = cyclicLoop E s self recur l v := by
  intro l
  induction l with
  | nil => intro v t; rfl
  | cons pos rest ih =>
    intro v t
    rw [cyclicLoopTrace, cyclicLoop]
    cases s.GetCell E pos with
    | error e => rfl
    | ok found =>
      cases found with
      | none => exact ih v t
      | some ref_cell =>
        simp only
        by_cases hv : self ∈ v
        · simp only [hv, if_true]
          exact ih v t
        · simp only [hv, if_false]
          by_cases hpos : pos = self
          · simp only [hpos, if_true]
            rfl
          · simp only [hpos, if_false]
            cases ref_cell.GetReferencedCells with
            | none => rfl
            | some cells =>
              simp only
              have h := hrec cells (setInsert pos v) (t ++ [pos])
              cases hr : recurT cells (setInsert pos v) (t ++ [pos]) with
              | threw e => rw [hr] at h; rw [← h]; rfl
              | undefined => rw [hr] at h; rw [← h]; rfl
              | outOfFuel => rw [hr] at h; rw [← h]; rfl
              | ok res =>
                obtain ⟨b1, v1, t1⟩ := res
                rw [hr] at h
                rw [← h]
                cases b1 with
                | true => rfl
                | false => exact ih v1 t1

theorem HasCyclicDependenceRecursivelyTrace_erase (E : Env) (s : Sheet) (self : Position) :
    ∀ n l v t, dropTrace (HasCyclicDependenceRecursivelyTrace E s self n l v t) =
      HasCyclicDependenceRecursively E s self n l v := by
  intro n
  induction n with
  | zero => intro l v t; rfl
  | succ n ih =>
    intro l v t
    rw [HasCyclicDependenceRecursivelyTrace, HasCyclicDependenceRecursively]
    exact cyclicLoopTrace_erase E s self _ _ ih l v t

/-- C19 (the code at the failing input): the search does not treat a visited
cell as a dead end.  On the diamond A1 `=1`, B1 `=A1+1`, C1 `=A1+1`, the check
of D1 against the candidates B1 and C1 follows the referenced cells of B1, A1,
C1 and A1 again: the shared cell A1 is expanded twice.  On the chain A1 `=1`,
B1 `=A1+1`, C1 `=B1+1`, the check of D1 against B1 and C1 expands B1, A1, C1,
B1, A1: five expansions on a sheet of four cells.  Both sheets are acyclic and
both checks return false.  The recorded run gives the results of the run that
is not recorded. -/
theorem search_expands_cells_again :
    (∀ E s self n l v t, dropTrace (HasCyclicDependenceRecursivelyTrace E s self n l v t) =
      HasCyclicDependenceRecursively E s self n l v) ∧
    Acyclic diamondSheetWithD1 ∧
    cyclic exampleEnv 8 diamondSheetWithD1 D1 [B1, C1] = some false ∧
    expansions exampleEnv 8 diamondSheetWithD1 D1 [B1, C1] = some [B1, A1, C1, A1] ∧
    Acyclic chainSheetWithD1 ∧
    cyclic exampleEnv 8 chainSheetWithD1 D1 [B1, C1] = some false ∧
    expansions exampleEnv 8 chainSheetWithD1 D1 [B1, C1] = some [B1, A1, C1, B1, A1] ∧
    chainSheetWithD1.cellCount = 4 ∧
    (callOn exampleEnv 8 (afterCalls exampleEnv chainExample Sheet.empty)
      (.SetCell D1 "=B1+C1")).returned = true := by
  refine ⟨HasCyclicDependenceRecursivelyTrace_erase,
    (Reachable.invariant (reachable_getD exampleEnv _ (by decide))).2, by decide, by decide,
    (Reachable.invariant (reachable_getD exampleEnv _ (by decide))).2, by decide, by decide,
    by decide, by decide⟩

/-! ## The printable size -/

theorem BoxOf.congr {P Q : Nat → Nat → Prop} {sz : Size} (h : ∀ r c, P r c ↔ Q r c)
    (hb : BoxOf P sz) : BoxOf Q sz := by
  obtain ⟨h1, h2, h3⟩ := hb
  refine ⟨fun r c hq => h1 r c ((h r c).mpr hq), ?_, ?_⟩
  · rcases h2 with h2 | ⟨c, hc⟩
    · exact Or.inl h2
    · exact Or.inr ⟨c, (h _ _).mp hc⟩
  · rcases h3 with h3 | ⟨r, hr⟩
    · exact Or.inl h3
    · exact Or.inr ⟨r, (h _ _).mp hr⟩

theorem BoxOf.add {P : Nat → Nat → Prop} {sz : Size} (row col : Nat) (hb : BoxOf P sz) :
    BoxOf (fun r c => P r c ∨ (r = row ∧ c = col))
      { rows := max sz.rows (row + 1), cols := max sz.cols (col + 1) } := by
  obtain ⟨h1, h2, h3⟩ := hb
  refine ⟨?_, ?_, ?_⟩
  · rintro r c (hp | ⟨hr, hc⟩)
    · have := h1 r c hp
      simp only
      omega
    · subst hr hc
      simp only
      omega
  · right
    simp only
    by_cases hle : row + 1 ≤ sz.rows
    · rw [Nat.max_eq_left hle]
      rcases h2 with h2 | ⟨c, hc⟩
      · omega
      · exact ⟨c, Or.inl hc⟩
    · rw [Nat.max_eq_right (by omega)]
      exact ⟨col, Or.inr ⟨by omega, rfl⟩⟩
  · right
    simp only
    by_cases hle : col + 1 ≤ sz.cols
    · rw [Nat.max_eq_left hle]
      rcases h3 with h3 | ⟨r, hr⟩
      · omega
      · exact ⟨r, Or.inl hr⟩
    · rw [Nat.max_eq_right (by omega)]
      exact ⟨row, Or.inr ⟨rfl, by omega⟩⟩

theorem scanRow_box (row : Nat) :
    ∀ (cells : List (Option Cell)) (col : Nat) (acc : Size) (P : Nat → Nat → Prop),
      BoxOf P acc →
      BoxOf (fun r c => P r c ∨ (r = row ∧ ∃ i x, c = col + i ∧ cells[i]? = some (some x)))
        (scanRow row cells col acc) := by
  intro cells
  induction cells with
  | nil =>
    intro col acc P hb
    rw [scanRow]
    refine hb.congr (fun r c => ⟨Or.inl, ?_⟩)
    rintro (h | ⟨_, i, x, _, hx⟩)
    · exact h
    · simp at hx
  | cons o t ih =>
    intro col acc P hb
    cases o with
    | none =>
      rw [scanRow]
      refine (ih (col + 1) acc P hb).congr (fun r c => ?_)
      constructor
      · rintro (h | ⟨hr, i, x, hc, hx⟩)
        · exact Or.inl h
        · exact Or.inr ⟨hr, i + 1, x, by omega, by simpa using hx⟩
      · rintro (h | ⟨hr, i, x, hc, hx⟩)
        · exact Or.inl h
        · cases i with
          | zero => simp at hx
          | succ j => exact Or.inr ⟨hr, j, x, by omega, by simpa using hx⟩
    | some y =>
      rw [scanRow]
      refine (ih (col + 1) _ _ (hb.add row col)).congr (fun r c => ?_)
      constructor
      · rintro ((h | ⟨hr, hc⟩) | ⟨hr, i, x, hc, hx⟩)
        · exact Or.inl h
        · exact Or.inr ⟨hr, 0, y, by omega, by simp⟩
        · exact Or.inr ⟨hr, i + 1, x, by omega, by simpa using hx⟩
      · rintro (h | ⟨hr, i, x, hc, hx⟩)
        · exact Or.inl (Or.inl h)
        · cases i with
          | zero => exact Or.inl (Or.inr ⟨hr, by omega⟩)
          | succ j => exact Or.inr ⟨hr, j, x, by omega, by simpa using hx⟩

theorem scanRows_box :
    ∀ (g : List (List (Option Cell))) (row : Nat) (acc : Size) (P : Nat → Nat → Prop),
      BoxOf P acc →
      BoxOf (fun r c => P r c ∨
          ∃ i cells x, r = row + i ∧ g[i]? = some cells ∧ cells[c]? = some (some x))
        (scanRows g row acc) := by
  intro g
  induction g with
  | nil =>
    intro row acc P hb
    rw [scanRows]
    refine hb.congr (fun r c => ⟨Or.inl, ?_⟩)
    rintro (h | ⟨i, cells, x, _, hx, _⟩)
    · exact h
    · simp at hx
  | cons cells0 t ih =>
    intro row acc P hb
    rw [scanRows]
    refine (ih (row + 1) _ _ (scanRow_box row cells0 0 acc P hb)).congr (fun r c => ?_)
    constructor
    · rintro ((h | ⟨hr, i, x, hc, hx⟩) | ⟨i, cells, x, hr, hcells, hx⟩)
      · exact Or.inl h
      · refine Or.inr ⟨0, cells0, x, by omega, by simp, ?_⟩
        have : c = i := by omega
        subst this
        exact hx
      · exact Or.inr ⟨i + 1, cells, x, by omega, by simpa using hcells, hx⟩
    · rintro (h | ⟨i, cells, x, hr, hcells, hx⟩)
      · exact Or.inl (Or.inl h)
      · cases i with
        | zero =>
          simp only [List.getElem?_cons_zero, Option.some.injEq] at hcells
          subst hcells
          exact Or.inl (Or.inr ⟨by omega, c, x, by omega, hx⟩)
        | succ j =>
          exact Or.inr ⟨j, cells, x, by omega, by simpa using hcells, hx⟩

theorem slot_eq_some (g : List (List (Option Cell))) (r c : Nat) (x : Cell) :
    slot g r c = some x ↔ ∃ cells, g[r]? = some cells ∧ cells[c]? = some (some x) := by
  unfold slot
  cases hg : g[r]? with
  | none => simp
  | some cells =>
    cases hc : cells[c]? with
    | none => simp [hc]
    | some o => simp [hc]

theorem GetPrintableSize_box (s : Sheet) :
    BoxOf (fun r c => ∃ x, slot s.sheet_ r c = some x) s.GetPrintableSize := by
  unfold Sheet.GetPrintableSize
  have h0 : BoxOf (fun _ _ => False) { rows := 0, cols := 0 } :=
    ⟨fun _ _ h => h.elim, Or.inl rfl, Or.inl rfl⟩
  refine (scanRows_box s.sheet_ 0 _ _ h0).congr (fun r c => ?_)
  constructor
  · rintro (h | ⟨i, cells, x, hr, hcells, hx⟩)
    · exact h.elim
    · have : r = i := by omega
      subst this
      exact ⟨x, (slot_eq_some _ _ _ _).mpr ⟨cells, hcells, hx⟩⟩
  · rintro ⟨x, hx⟩
    obtain ⟨cells, hcells, hx⟩ := (slot_eq_some _ _ _ _).mp hx
    exact Or.inr ⟨r, cells, x, by omega, hcells, hx⟩

theorem BoxOf.unique {P : Nat → Nat → Prop} {sz sz' : Size} (h : BoxOf P sz)
    (h' : BoxOf P sz') : sz = sz' := by
  obtain ⟨h1, h2, h3⟩ := h
  obtain ⟨h1', h2', h3'⟩ := h'
  have hrows : sz.rows = sz'.rows := by
    rcases h2 with h2 | ⟨c, hc⟩ <;> rcases h2' with h2' | ⟨c', hc'⟩
    · omega
    · have := (h1 _ _ hc').1; omega
    · have := (h1' _ _ hc).1; omega
    · have := (h1 _ _ hc').1
      have := (h1' _ _ hc).1
      omega
  have hcols : sz.cols = sz'.cols := by
    rcases h3 with h3 | ⟨r, hr⟩ <;> rcases h3' with h3' | ⟨r', hr'⟩
    · omega
    · have := (h1 _ _ hr').2; omega
    · have := (h1' _ _ hr).2; omega
    · have := (h1 _ _ hr').2
      have := (h1' _ _ hr).2
      omega
  cases sz; cases sz'
  simp only at hrows hcols
  subst hrows hcols
  rfl

theorem cellAt_natCast (s : Sheet) (r c : Nat) :
    s.cellAt { row := (r : Int), col := (c : Int) } = slot s.sheet_ r c := by
  unfold Sheet.cellAt
  simp

theorem cellAt_eq_slot (s : Sheet) (p : Position) (x : Cell) (h : s.cellAt p = some x) :
    0 ≤ p.row ∧ 0 ≤ p.col ∧ slot s.sheet_ p.row.toNat p.col.toNat = some x := by
  unfold Sheet.cellAt at h
  split at h
  · rename_i hnn
    exact ⟨hnn.1, hnn.2, h⟩
  · cases h

theorem size_of_no_cell (s : Sheet) (h : ∀ q, s.cellAt q = none) :
    s.GetPrintableSize = { rows := 0, cols := 0 } := by
  refine (GetPrintableSize_box s).unique ⟨?_, Or.inl rfl, Or.inl rfl⟩
  rintro r c ⟨x, hx⟩
  rw [← cellAt_natCast, h] at hx
  cases hx

theorem size_of_single_cell (s : Sheet) (p : Position) (x : Cell)
    (h : ∀ q, s.cellAt q = if q = p then some x else none) :
    s.GetPrintableSize = { rows := p.row.toNat + 1, cols := p.col.toNat + 1 } := by
  have hp : slot s.sheet_ p.row.toNat p.col.toNat = some x := by
    have := h p
    rw [if_pos rfl] at this
    exact (cellAt_eq_slot s p x this).2.2
  refine (GetPrintableSize_box s).unique ⟨?_, Or.inr ⟨p.col.toNat, x, hp⟩,
    Or.inr ⟨p.row.toNat, x, hp⟩⟩
  rintro r c ⟨y, hy⟩
  rw [← cellAt_natCast, h] at hy
  split at hy
  · rename_i heq
    rw [← heq]
    simp
  · cases hy

theorem Cell_Set_text_updated (E : Env) (setCell : Sheet → Position → String → Outcome)
    (fuel : Nat) (s : Sheet) (self : Position) (this : Cell) (text : String)
    (hthis : s.cellAt self = some this) (hdep : this.dependent_cells_ = [])
    (hlive : ∀ a ∈ this.referencing_cells_, (s.findAddr a).isSome = true)
    (htext : ¬ IsFormulaText E text) :
    ∃ s', Cell.Set E setCell fuel s self text = .done s' ∧
      Updated s s' self { this with
        referencing_cells_ := []
        impl_ := some (if text.data = [] then .EmptyImpl else .TextImpl text) } := by
  obtain ⟨s1, h1, hup⟩ := ClearCellReferences_live fuel s self this hthis hdep hlive
  unfold Cell.Set
  rw [h1]
  simp only
  unfold IsFormulaText at htext
  by_cases hempty : text.data = []
  · simp only [hempty, if_true]
    exact ⟨_, rfl, hup.andThen (updated_of_modify s1 self _ _ hup.self)⟩
  · simp only [hempty, if_false, htext]
    exact ⟨_, rfl, hup.andThen (updated_of_modify s1 self _ _ hup.self)⟩

theorem SetCell_text_on_empty (E : Env) (fuel : Nat) (p : Position) (text : String)
    (hvalid : p.IsValid E = true) (htext : ¬ IsFormulaText E text) :
    ∃ s', SetCell E (fuel + 2) Sheet.empty p text = .done s' ∧
      s'.GetPrintableSize = { rows := p.row.toNat + 1, cols := p.col.toNat + 1 } := by
  have hnone : ∀ q, Sheet.empty.cellAt q = none := by
    intro q
    simp [Sheet.cellAt, Sheet.empty, slot]
  obtain ⟨s0, h0, heq⟩ := SetCell_absent E fuel Sheet.empty p text hvalid (hnone p)
  obtain ⟨s', hdone, hup⟩ := Cell_Set_text_updated E (SetCell E fuel) fuel s0 p _ text h0.self
    rfl (fun a ha => by cases ha) htext
  have hall := h0.andThen hup
  exact ⟨s', by rw [heq, hdone],
    size_of_single_cell s' p _ (fun q => (hall q).trans (by rw [hnone]))⟩

/-- C12 (counterexample): after the single call `SetCell(C3, "x")` on the empty
sheet the printable size is 3 rows by 3 columns, not 3 by 4. -/
theorem C3_size_is_not_3_by_4 :
    (afterCalls exampleEnv [(8, .SetCell C3 "x")] Sheet.empty).map Sheet.GetPrintableSize =
      some { rows := 3, cols := 3 } ∧
    (afterCalls exampleEnv [(8, .SetCell C3 "x")] Sheet.empty).map Sheet.GetPrintableSize ≠
      some { rows := 3, cols := 4 } := by
  decide

/-- C12, as amended: the printable size of the empty sheet is 0 by 0, and on
the sheet obtained from the empty sheet by a single `SetCell` at C3 (row 2,
column 2) with a text that is not empty and not a formula it is 3 rows by 3
columns. -/
theorem size_after_C3 (E : Env) (fuel : Nat) (text : String) (hvalid : C3.IsValid E = true)
    (hnonempty : text.data ≠ []) (hliteral : ¬ IsFormulaText E text) :
    Sheet.empty.GetPrintableSize = { rows := 0, cols := 0 } ∧
    ∃ s', SetCell E (fuel + 2) Sheet.empty C3 text = .done s' ∧
      (s'.cellAt C3).map (Cell.GetText E) = some (some text) ∧
      s'.GetPrintableSize = { rows := 3, cols := 3 } := by
  refine ⟨rfl, ?_⟩
  have hnone : ∀ q, Sheet.empty.cellAt q = none := by
    intro q
    simp [Sheet.cellAt, Sheet.empty, slot]
  obtain ⟨s0, h0, heq⟩ := SetCell_absent E fuel Sheet.empty C3 text hvalid (hnone C3)
  obtain ⟨s', hdone, hup⟩ := Cell_Set_text_updated E (SetCell E fuel) fuel s0 C3 _ text h0.self
    rfl (fun a ha => by cases ha) hliteral
  refine ⟨s', by rw [heq, hdone], ?_, ?_⟩
  · rw [hup.self]
    simp [Cell.GetText, hnonempty, Impl.GetText]
  · have hall := h0.andThen hup
    exact size_of_single_cell s' C3 _ (fun q => (hall q).trans (by rw [hnone]))

theorem size_after_C3_witness :
    C3.IsValid exampleEnv = true ∧ ¬ IsFormulaText exampleEnv "x" ∧
    Sheet.empty.GetPrintableSize = { rows := 0, cols := 0 } ∧
    ∃ s', SetCell exampleEnv (6 + 2) Sheet.empty C3 "x" = .done s' ∧
      (s'.cellAt C3).map (Cell.GetText exampleEnv) = some (some "x") ∧
      s'.GetPrintableSize = { rows := 3, cols := 3 } :=
  ⟨by decide, by unfold IsFormulaText; decide,
    size_after_C3 exampleEnv 6 "x" (by decide) (by decide) (by unfold IsFormulaText; decide)⟩

theorem AllValid.of_updated_valid {E : Env} {s s1 : Sheet} {p : Position} {c : Cell}
    (h : AllValid E s) (hup : Updated s s1 p c) (hp : p.IsValid E = true) : AllValid E s1 := by
  intro q c' hq
  rw [hup q] at hq
  split at hq
  · rename_i hqp
    rw [hqp]
    exact hp
  · exact h q c' hq

theorem AllValid.extended {E : Env} {s s1 : Sheet} {self : Position} {l : List Position}
    (h : AllValid E s) (hext : Extends s s1 self l) (hl : ∀ q ∈ l, q.IsValid E = true)
    (hself : self.IsValid E = true) : AllValid E s1 := by
  intro q c' hq
  by_cases hqs : q = self
  · rw [hqs]
    exact hself
  · rcases hext q hqs with h1 | ⟨_, hmem, _⟩
    · rw [h1] at hq
      exact h q c' hq
    · exact hl q hmem

theorem SetSpec.keeps_allValid {E : Env} {s : Sheet} {self : Position} {this : Cell}
    {text : String} {out : Outcome} (h : SetSpec E s self this text out)
    (hv : AllValid E s) (hself : self.IsValid E = true) (s' : Sheet)
    (hout : out.sheet = some s') : AllValid E s' := by
  obtain ⟨s1, hup, h⟩ := h
  have hv1 : AllValid E s1 := hv.of_updated_valid hup hself
  rcases h with ⟨e, he⟩ | ⟨_, s2, he, hup2⟩ | ⟨_, _, s2, he, hup2⟩ |
    ⟨_, formula, s2, _, he, ⟨n, hcyc⟩, hext, _, R, hR⟩
  all_goals
    subst he
    simp only [Outcome.sheet, Option.some.injEq] at hout
    subst hout
  · exact hv1
  · exact hv.of_updated_valid hup2 hself
  · exact hv.of_updated_valid hup2 hself
  · exact hv1.extended hext (HasCyclicDependence_false_valid E n s1 self _ hcyc) hself

theorem SetCellSpec.leaves_allValid {E : Env} {s : Sheet} {pos : Position} {text : String}
    {out : Outcome} (h : SetCellSpec E s pos text out) (hv : AllValid E s) (s' : Sheet)
    (hout : out.sheet = some s') : AllValid E s' := by
  rcases h with ⟨_, he⟩ | ⟨hvalid, s0, this, hbase, _, hset⟩
  · subst he
    simp only [Outcome.sheet, Option.some.injEq] at hout
    subst hout
    exact hv
  · have hv0 : AllValid E s0 := by
      rcases hbase with ⟨_, h0⟩ | ⟨_, _, h0⟩
      · subst h0; exact hv
      · exact hv.of_updated_valid h0 hvalid
    exact hset.keeps_allValid hv0 hvalid s' hout

theorem SameButCaches.keeps_valid {E : Env} {s s1 : Sheet} (h : SameButCaches s s1)
    (hv : AllValid E s) : AllValid E s1 := by
  intro q c1 hc1
  obtain ⟨c, hc, _⟩ := h.cell hc1
  exact hv q c hc

theorem step_allValid (E : Env) (fuel : Nat) (s : Sheet) (call : Call) (s' : Sheet)
    (hnd : NoDependents s) (hv : AllValid E s) (h : (step E fuel s call).sheet = some s') :
    AllValid E s' := by
  cases call with
  | SetCell pos text =>
    simp only [step] at h
    rcases SetCell_spec E fuel s pos text hnd with hu | hu | hspec
    · rw [hu] at h; cases h
    · rw [hu] at h; cases h
    · exact hspec.leaves_allValid hv s' h
  | ClearCell pos =>
    simp only [step, ClearCell] at h
    split at h
    · rename_i hvalid
      obtain ⟨hr, hc⟩ := valid_nonneg E pos hvalid
      rw [GetCell_valid E s pos hvalid] at h
      cases hfound : s.cellAt pos with
      | none =>
        rw [hfound] at h
        simp only [Outcome.sheet, Option.some.injEq] at h
        subst h
        exact hv
      | some c =>
        rw [hfound] at h
        simp only [Outcome.sheet, Option.some.injEq] at h
        subst h
        intro q c' hq
        rw [cellAt_put_none s pos q hr hc] at hq
        split at hq
        · cases hq
        · exact hv q c' hq
    · simp only [Outcome.sheet, Option.some.injEq] at h
      subst h
      exact hv
  | GetValue pos =>
    simp only [step] at h
    cases hget : s.GetCell E pos with
    | error e =>
      rw [hget] at h
      simp only [Outcome.sheet, Option.some.injEq] at h
      subst h
      exact hv
    | ok found =>
      rw [hget] at h
      cases found with
      | none => cases h
      | some c =>
        simp only at h
        cases hval : GetValue E fuel s pos with
        | threw e =>
          rw [hval] at h
          simp only [Outcome.sheet, Option.some.injEq] at h
          subst h
          exact hv
        | undefined => rw [hval] at h; cases h
        | outOfFuel => rw [hval] at h; cases h
        | ok res =>
          obtain ⟨v, s1⟩ := res
          rw [hval] at h
          simp only [Outcome.sheet, Option.some.injEq] at h
          subst h
          exact (GetValue_sameButCaches E fuel s pos v s1 hval).keeps_valid hv

theorem afterCalls_allValid (E : Env) :
    ∀ (calls : List (Nat × Call)) (s s' : Sheet), NoDependents s → Acyclic s → AllValid E s →
      afterCalls E calls s = some s' → AllValid E s' := by
  intro calls
  induction calls with
  | nil =>
    intro s s' _ _ hv h
    simp only [afterCalls, Option.some.injEq] at h
    subst h
    exact hv
  | cons head rest ih =>
    intro s s' hnd hac hv h
    obtain ⟨fuel, call⟩ := head
    rw [afterCalls] at h
    cases hstep : (step E fuel s call).sheet with
    | none => rw [hstep] at h; cases h
    | some s1 =>
      rw [hstep] at h
      obtain ⟨hnd1, hac1⟩ := step_invariant E fuel s call s1 hnd hac hstep
      exact ih s1 s' hnd1 hac1 (step_allValid E fuel s call s1 hnd hv hstep) h

theorem Reachable.cells_valid {E : Env} {s : Sheet} (h : Reachable E s) : AllValid E s := by
  obtain ⟨calls, h⟩ := h
  refine afterCalls_allValid E calls Sheet.empty s empty_noDependents empty_acyclic ?_ h
  intro p c hc
  simp [Sheet.cellAt, Sheet.empty, slot] at hc

theorem Reachable.GetCell_iff {E : Env} {s : Sheet} (h : Reachable E s) (p : Position)
    (c : Cell) : s.GetCell E p = .ok (some c) ↔ s.cellAt p = some c := by
  constructor
  · intro hget
    exact (GetCell_ok E s p _ hget).2.symm
  · intro hc
    rw [GetCell_valid E s p (h.cells_valid p c hc), hc]

theorem Reachable.printable_box {E : Env} {s : Sheet} (h : Reachable E s) :
    (∀ p c, s.GetCell E p = .ok (some c) →
      p.row + 1 ≤ (s.GetPrintableSize.rows : Int) ∧
      p.col + 1 ≤ (s.GetPrintableSize.cols : Int)) ∧
    (s.GetPrintableSize.rows = 0 ∨
      ∃ p c, s.GetCell E p = .ok (some c) ∧ p.row + 1 = (s.GetPrintableSize.rows : Int)) ∧
    (s.GetPrintableSize.cols = 0 ∨
      ∃ p c, s.GetCell E p = .ok (some c) ∧ p.col + 1 = (s.GetPrintableSize.cols : Int)) := by
  obtain ⟨h1, h2, h3⟩ := GetPrintableSize_box s
  refine ⟨?_, ?_, ?_⟩
  · intro p c hget
    obtain ⟨hr, hc, hslot⟩ := cellAt_eq_slot s p c ((h.GetCell_iff p c).mp hget)
    have := h1 _ _ ⟨c, hslot⟩
    omega
  · rcases h2 with h2 | ⟨c0, x, hx⟩
    · exact Or.inl h2
    · by_cases hz : s.GetPrintableSize.rows = 0
      · exact Or.inl hz
      · right
        rw [← cellAt_natCast] at hx
        refine ⟨_, x, (h.GetCell_iff _ x).mpr hx, ?_⟩
        simp only
        omega
  · rcases h3 with h3 | ⟨r0, x, hx⟩
    · exact Or.inl h3
    · by_cases hz : s.GetPrintableSize.cols = 0
      · exact Or.inl hz
      · right
        rw [← cellAt_natCast] at hx
        refine ⟨_, x, (h.GetCell_iff _ x).mpr hx, ?_⟩
        simp only
        omega

/-- C20: on a sheet reached from the empty sheet, every position at which
`GetCell` returns a cell, whatever the cell holds, lies inside the printable
size; unless the size has no row, `GetCell` returns a cell in its last row, and
likewise for the last column; the size is 0 by 0 when `GetCell` returns a cell
nowhere.  `SetCell(p, "")` on the empty sheet gives the size `p.row + 1` by
`p.col + 1`, and `ClearCell` of the only cell gives 0 by 0. -/
theorem printable_size_of_present_cells (E : Env) (s : Sheet) (hreach : Reachable E s) :
    (∀ p c, s.GetCell E p = .ok (some c) →
      p.row + 1 ≤ (s.GetPrintableSize.rows : Int) ∧
      p.col + 1 ≤ (s.GetPrintableSize.cols : Int)) ∧
    (s.GetPrintableSize.rows = 0 ∨
      ∃ p c, s.GetCell E p = .ok (some c) ∧ p.row + 1 = (s.GetPrintableSize.rows : Int)) ∧
    (s.GetPrintableSize.cols = 0 ∨
      ∃ p c, s.GetCell E p = .ok (some c) ∧ p.col + 1 = (s.GetPrintableSize.cols : Int)) ∧
    ((∀ p c, s.GetCell E p ≠ .ok (some c)) → s.GetPrintableSize = { rows := 0, cols := 0 }) ∧
    (∀ p fuel, p.IsValid E = true →
      ∃ s', SetCell E (fuel + 2) Sheet.empty p "" = .done s' ∧
        s'.GetPrintableSize = { rows := p.row.toNat + 1, cols := p.col.toNat + 1 }) ∧
    (∀ p c, s.GetCell E p = .ok (some c) → (∀ q, q ≠ p → s.cellAt q = none) →
      ∃ s', ClearCell E s p = .done s' ∧ s'.GetPrintableSize = { rows := 0, cols := 0 }) := by
  obtain ⟨h1, h2, h3⟩ := hreach.printable_box
  refine ⟨h1, h2, h3, ?_, ?_, ?_⟩
  · intro hnone
    apply size_of_no_cell
    intro q
    cases hq : s.cellAt q with
    | none => rfl
    | some c => exact absurd ((hreach.GetCell_iff q c).mpr hq) (hnone q c)
  · intro p fuel hvalid
    exact SetCell_text_on_empty E fuel p "" hvalid (fun h => by
      have := h.1
      simp at this)
  · intro p c hget honly
    obtain ⟨hvalid, hc⟩ := GetCell_ok E s p _ hget
    obtain ⟨hr, hcol⟩ := valid_nonneg E p hvalid
    refine ⟨s.put p none, by simp [ClearCell, hvalid, hget], size_of_no_cell _ (fun q => ?_)⟩
    rw [cellAt_put_none s p q hr hcol]
    split
    · rfl
    · rename_i hq
      exact honly q hq

theorem printable_size_of_present_cells_witness :
    placeholderSheet.GetPrintableSize = { rows := 1, cols := 3 } ∧
    textAt exampleEnv (some placeholderSheet) C1 = some "" ∧
    (∀ p c, placeholderSheet.GetCell exampleEnv p = .ok (some c) →
      p.row + 1 ≤ (placeholderSheet.GetPrintableSize.rows : Int) ∧
      p.col + 1 ≤ (placeholderSheet.GetPrintableSize.cols : Int)) ∧
    (∃ s', SetCell exampleEnv (6 + 2) Sheet.empty C3 "" = .done s' ∧
      s'.GetPrintableSize = { rows := 3, cols := 3 }) :=
  ⟨by decide, by decide,
    (printable_size_of_present_cells exampleEnv placeholderSheet
      (reachable_getD exampleEnv _ (by decide))).1,
    (printable_size_of_present_cells exampleEnv placeholderSheet
      (reachable_getD exampleEnv _ (by decide))).2.2.2.2.1 C3 6 (by decide)⟩

/-- C11 (counterexample): the printable size is not the bounding box of the
cells with non-empty text.  After `SetCell(A1, "")` on the empty sheet the only
cell has the text `""`, and the size is 1 by 1, not 0 by 0.  After
`SetCell(A1, "=C1")` the only cell with non-empty text is A1, B1 holds no cell,
C1 is a placeholder with the text `""`, and the size is 1 by 3, not 1 by 1. -/
theorem empty_cells_enlarge_size :
    textAt exampleEnv (some emptyTextSheet) A1 = some "" ∧
    emptyTextSheet.cellCount = 1 ∧
    emptyTextSheet.GetPrintableSize = { rows := 1, cols := 1 } ∧
    textAt exampleEnv (some placeholderSheet) A1 = some "=C1" ∧
    presentAt (some placeholderSheet) B1 = some (false, false) ∧
    textAt exampleEnv (some placeholderSheet) C1 = some "" ∧
    placeholderSheet.cellCount = 2 ∧
    placeholderSheet.GetPrintableSize = { rows := 1, cols := 3 } := by
  decide

/-- C11, as amended: on a sheet reached from the empty sheet the printable
size is the smallest box that holds every cell of the grid: every position at
which `GetCell` returns a cell lies inside it, a cell with the text `""`
included, so that such a cell makes the box at least 1 by 1; and every size that
holds all those positions has at least as many rows and columns.  It is 0 by 0
when the grid holds no cell. -/
theorem printable_size_minimal_box (E : Env) (s : Sheet) (hreach : Reachable E s) :
    (∀ p c, s.GetCell E p = .ok (some c) →
      p.row + 1 ≤ (s.GetPrintableSize.rows : Int) ∧
      p.col + 1 ≤ (s.GetPrintableSize.cols : Int)) ∧
    (∀ p c, s.GetCell E p = .ok (some c) → c.GetText E = some "" →
      1 ≤ s.GetPrintableSize.rows ∧ 1 ≤ s.GetPrintableSize.cols) ∧
    (∀ box : Size,
      (∀ p c, s.GetCell E p = .ok (some c) →
        p.row + 1 ≤ (box.rows : Int) ∧ p.col + 1 ≤ (box.cols : Int)) →
      s.GetPrintableSize.rows ≤ box.rows ∧ s.GetPrintableSize.cols ≤ box.cols) ∧
    ((∀ p, s.GetCell E p = .ok none ∨ s.GetCell E p = .error .InvalidPosition) →
      s.GetPrintableSize = { rows := 0, cols := 0 }) := by
  obtain ⟨h1, h2, h3⟩ := hreach.printable_box
  refine ⟨h1, ?_, ?_, ?_⟩
  · intro p c hget _
    obtain ⟨hvalid, _⟩ := GetCell_ok E s p _ hget
    obtain ⟨hr, hc⟩ := valid_nonneg E p hvalid
    have := h1 p c hget
    omega
  · intro box hbox
    constructor
    · rcases h2 with h2 | ⟨p, c, hget, heq⟩
      · omega
      · have := (hbox p c hget).1
        omega
    · rcases h3 with h3 | ⟨p, c, hget, heq⟩
      · omega
      · have := (hbox p c hget).2
        omega
  · intro hnone
    apply size_of_no_cell
    intro q
    cases hq : s.cellAt q with
    | none => rfl
    | some c =>
      have hget := (hreach.GetCell_iff q c).mpr hq
      rcases hnone q with h | h <;> rw [hget] at h <;> cases h

theorem printable_size_minimal_box_witness :
    textAt exampleEnv (some emptyTextSheet) A1 = some "" ∧
    emptyTextSheet.GetPrintableSize = { rows := 1, cols := 1 } ∧
    (∀ p c, emptyTextSheet.GetCell exampleEnv p = .ok (some c) →
      c.GetText exampleEnv = some "" →
      1 ≤ emptyTextSheet.GetPrintableSize.rows ∧ 1 ≤ emptyTextSheet.GetPrintableSize.cols) ∧
    (∀ box : Size,
      (∀ p c, emptyTextSheet.GetCell exampleEnv p = .ok (some c) →
        p.row + 1 ≤ (box.rows : Int) ∧ p.col + 1 ≤ (box.cols : Int)) →
      emptyTextSheet.GetPrintableSize.rows ≤ box.rows ∧
      emptyTextSheet.GetPrintableSize.cols ≤ box.cols) :=
  ⟨by decide, by decide,
    (printable_size_minimal_box exampleEnv emptyTextSheet
      (reachable_getD exampleEnv _ (by decide))).2.1,
    (printable_size_minimal_box exampleEnv emptyTextSheet
      (reachable_getD exampleEnv _ (by decide))).2.2.1⟩

/-! ## The referenced cells of a formula whose tree reports a sorted list -/

end Spreadsheet
